import Mathlib

/-!
# Verification of `lxi.go` (package `lxi`)

A shallow embedding of the LXI device client: a `Device` wraps one network
connection and a read timeout in milliseconds.

Modelling conventions.

* A Go `string` and a Go `[]byte` are both modelled as `Bytes = List Char`; the
  conversion `[]byte(s)` is the identity.  SCPI traffic is ASCII, where one
  character is one byte.
* The connection (`net.Conn`) is a value of type `Conn`.  Everything the
  transport may do is scripted inside the value: the data and errors that
  successive reads deliver (`inbound`), the outcome of successive writes
  (`writeFaults`) and the result of closing (`closeErr`).  Every method call
  made on the connection is appended to `log`.
* `time.Now()` is an explicit argument `now`, in nanoseconds since Go's zero
  `time.Time`; the zero time itself is `0`.
* `fmt.Sprintf` is an explicit argument `sprintf` of the operations that may
  reach it, so that the general results hold for every formatter.
* A method call on a nil connection panics: `Abort.nilConn`.
-/

namespace Lxi

/-- Byte sequences: Go strings and byte slices. -/
abbrev Bytes := List Char

/-- The zero value `time.Time{}`; instants are integers, the nanoseconds since it. -/
def zeroTime : Int := 0

/-- Go `error` values that can reach the caller. -/
inductive GoError where
  | netClosed
  | eof
  | timeout
  | errNoProgress
  | errBufferFull
  | transport (code : Nat)
  | resource (code : Nat)
  | dial (code : Nat)
  deriving DecidableEq, Repr

/-- Ways in which an operation fails to return at all. -/
inductive Abort where
  | nilConn
  | outOfFuel
  deriving DecidableEq, Repr

/-- A method call made on the connection. -/
inductive Call where
  | write (p : Bytes)
  | read (n : Nat)
  | setReadDeadline (t : Int)
  | close
  deriving DecidableEq, Repr

/-- State of a `net.Conn` together with the scripted behaviour of the transport. -/
structure Conn where
  closed : Bool
  deadline : Int
  inbound : List (Bytes × Option GoError)
  writeFaults : List (Option (Nat × GoError))
  closeErr : Option GoError
  outbound : Bytes
  log : List Call
  deriving DecidableEq, Repr

/-- All bytes the transport will still deliver, in order. -/
def Conn.stream (c : Conn) : Bytes :=
  (c.inbound.map Prod.fst).flatten

/-- Go `net.Conn.Write`: a closed connection refuses; otherwise the next scripted
outcome decides between a complete write and a write cut short by an error. -/
def Conn.Write (c : Conn) (p : Bytes) : Conn × Nat × Option GoError :=
  let c := { c with log := c.log ++ [Call.write p] }
  if c.closed then (c, 0, some GoError.netClosed)
  else
    match c.writeFaults with
    | [] => ({ c with outbound := c.outbound ++ p }, p.length, none)
    | none :: fs =>
      ({ c with outbound := c.outbound ++ p, writeFaults := fs }, p.length, none)
    | some (k, e) :: fs =>
      ({ c with outbound := c.outbound ++ p.take k, writeFaults := fs },
        min k p.length, some e)

/-- Go `net.Conn.Read` into a buffer of length `n`: returns the bytes stored in
the buffer and the error.  A closed connection refuses, a zero-length buffer
returns at once, the end of the script is the peer closing (`io.EOF`), and a
delivery longer than the buffer is handed over in pieces. -/
def Conn.Read (c : Conn) (n : Nat) : Conn × Bytes × Option GoError :=
  let c := { c with log := c.log ++ [Call.read n] }
  if c.closed then (c, [], some GoError.netClosed)
  else if n = 0 then (c, [], none)
  else
    match c.inbound with
    | [] => (c, [], some GoError.eof)
    | (data, err) :: rest =>
      if data.length ≤ n then ({ c with inbound := rest }, data, err)
      else ({ c with inbound := (data.drop n, err) :: rest }, data.take n, none)

/-- Go `net.Conn.SetReadDeadline`. -/
def Conn.SetReadDeadline (c : Conn) (t : Int) : Conn × Option GoError :=
  let c := { c with log := c.log ++ [Call.setReadDeadline t] }
  if c.closed then (c, some GoError.netClosed)
  else ({ c with deadline := t }, none)

/-- Go `net.Conn.Close`. -/
def Conn.Close (c : Conn) : Conn × Option GoError :=
  let c := { c with log := c.log ++ [Call.close] }
  if c.closed then (c, some GoError.netClosed)
  else ({ c with closed := true }, c.closeErr)

/-! ## `strings.TrimSpace` -/

/-- Go `unicode.IsSpace`. -/
def isSpace (c : Char) : Bool :=
  let n := c.toNat
  (0x09 ≤ n && n ≤ 0x0D) || n = 0x20 || n = 0x85 || n = 0xA0 || n = 0x1680 ||
  (0x2000 ≤ n && n ≤ 0x200A) || n = 0x2028 || n = 0x2029 || n = 0x202F ||
  n = 0x205F || n = 0x3000

/-- Go `strings.TrimSpace`: drop leading and trailing white space. -/
def TrimSpace (s : Bytes) : Bytes :=
  ((s.dropWhile isSpace).reverse.dropWhile isSpace).reverse

/-! ## `time.Duration` arithmetic -/

/-- Two's-complement wrap-around of a 64-bit signed integer. -/
def wrapInt64 (x : Int) : Int :=
  (x + 2 ^ 63) % 2 ^ 64 - 2 ^ 63

/-- Go `time.Millisecond`, in nanoseconds. -/
def Millisecond : Int := 1000000

/-- The argument of `SetReadDeadline` in `Read` and `Query`:
`time.Now().Add(time.Millisecond * time.Duration(d.timeout))` when the timeout
is positive, `time.Time{}` otherwise.  The product is an `int64` product. -/
def readDeadline (timeout : Int) (now : Int) : Int :=
  if timeout > 0 then now + wrapInt64 (Millisecond * timeout) else zeroTime

/-! ## `bufio.Reader` -/

/-- Go `bufio` default buffer size. -/
def defaultBufSize : Nat := 4096

/-- Go `bufio` bound on consecutive empty reads. -/
def maxConsecutiveEmptyReads : Nat := 100

/-- A `bufio.Reader`: `buf` holds the unread bytes `b.buf[b.r:b.w]`. -/
structure Reader where
  rd : Conn
  buf : Bytes
  err : Option GoError
  deriving DecidableEq, Repr

/-- Go `bufio.NewReader`. -/
def NewReader (rd : Conn) : Reader :=
  { rd := rd, buf := [], err := none }

/-- Go `bytes.IndexByte`. -/
def IndexByte : Bytes → Char → Option Nat
  | [], _ => none
  | x :: xs, c => if x = c then some 0 else (IndexByte xs c).map (· + 1)

/-- The read loop of `(*bufio.Reader).fill`, `i` attempts left. -/
def fillLoop : Nat → Reader → Reader
  | 0, b => { b with err := some GoError.errNoProgress }
  | i + 1, b =>
    match b.rd.Read (defaultBufSize - b.buf.length) with
    | (c, data, e) =>
      let b1 : Reader := { b with rd := c, buf := b.buf ++ data }
      match e with
      | some e1 => { b1 with err := some e1 }
      | none => if data.length > 0 then b1 else fillLoop i b1

/-- Go `(*bufio.Reader).fill`. -/
def Reader.fill (b : Reader) : Reader :=
  fillLoop maxConsecutiveEmptyReads b

/-- The loop of `(*bufio.Reader).ReadSlice`; `s` is the search start index. -/
def readSliceLoop (delim : Char) :
    Nat → Nat → Reader → Except Abort (Reader × Bytes × Option GoError)
  | 0, _, _ => Except.error Abort.outOfFuel
  | fuel + 1, s, b =>
    match IndexByte (b.buf.drop s) delim with
    | some i =>
      Except.ok ({ b with buf := b.buf.drop (s + i + 1) }, b.buf.take (s + i + 1), none)
    | none =>
      match b.err with
      | some e => Except.ok ({ b with buf := [], err := none }, b.buf, some e)
      | none =>
        if b.buf.length ≥ defaultBufSize then
          Except.ok ({ b with buf := [] }, b.buf, some GoError.errBufferFull)
        else
          readSliceLoop delim fuel b.buf.length b.fill

/-- Go `(*bufio.Reader).ReadSlice`. -/
def Reader.ReadSlice (b : Reader) (delim : Char) :
    Except Abort (Reader × Bytes × Option GoError) :=
  readSliceLoop delim (defaultBufSize + 1) 0 b

/-- The loop of `(*bufio.Reader).collectFragments`: returns the reader, the full
buffers, the final fragment and the error. -/
def collectLoop (delim : Char) :
    Nat → Reader → List Bytes → Except Abort (Reader × List Bytes × Bytes × Option GoError)
  | 0, _, _ => Except.error Abort.outOfFuel
  | fuel + 1, b, full =>
    match b.ReadSlice delim with
    | Except.error a => Except.error a
    | Except.ok (b1, frag, none) => Except.ok (b1, full, frag, none)
    | Except.ok (b1, frag, some e) =>
      if e = GoError.errBufferFull then collectLoop delim fuel b1 (full ++ [frag])
      else Except.ok (b1, full, frag, some e)

/-- Weight of what the transport has left: bytes plus deliveries. -/
def Conn.weight (c : Conn) : Nat :=
  (c.inbound.map (fun x => x.1.length + 1)).sum

/-- Go `(*bufio.Reader).collectFragments`. -/
def Reader.collectFragments (b : Reader) (delim : Char) :
    Except Abort (Reader × List Bytes × Bytes × Option GoError) :=
  collectLoop delim (b.rd.weight + b.buf.length + 2) b []

/-- Go `(*bufio.Reader).ReadString`. -/
def Reader.ReadString (b : Reader) (delim : Char) :
    Except Abort (Reader × Bytes × Option GoError) :=
  match b.collectFragments delim with
  | Except.error a => Except.error a
  | Except.ok (b1, full, frag, err) => Except.ok (b1, full.flatten ++ frag, err)

/-! ## The `Device` -/

/-- Arguments of a formatted command (`interface{}` values). -/
inductive Arg where
  | str (s : Bytes)
  | int (i : Int)
  deriving DecidableEq, Repr

/-- Go `Device`: `conn = none` is the nil interface value. -/
structure Device where
  conn : Option Conn
  timeout : Int
  deriving DecidableEq, Repr

/-- Go `(*Device).Write`. -/
def Device.Write (d : Device) (p : Bytes) : Except Abort (Device × Nat × Option GoError) :=
  match d.conn with
  | none => Except.error Abort.nilConn
  | some c =>
    match c.Write p with
    | (c1, n, err) => Except.ok ({ d with conn := some c1 }, n, err)

/-- Go `(*Device).Read` into a buffer of length `n`. -/
def Device.Read (d : Device) (now : Int) (n : Nat) :
    Except Abort (Device × Bytes × Option GoError) :=
  match d.conn with
  | none => Except.error Abort.nilConn
  | some c =>
    let c1 := (c.SetReadDeadline (readDeadline d.timeout now)).1
    match c1.Read n with
    | (c2, data, err) => Except.ok ({ d with conn := some c2 }, data, err)

/-- Go `(*Device).Close`. -/
def Device.Close (d : Device) : Except Abort (Device × Option GoError) :=
  match d.conn with
  | none => Except.error Abort.nilConn
  | some c =>
    match c.Close with
    | (c1, err) => Except.ok ({ d with conn := some c1 }, err)

/-- Go `(*Device).WriteString`. -/
def Device.WriteString (d : Device) (s : Bytes) :
    Except Abort (Device × Nat × Option GoError) :=
  d.Write s

/-- Go `(*Device).Command`; `a = none` is a nil argument slice. -/
def Device.Command (sprintf : Bytes → List Arg → Bytes) (d : Device)
    (format : Bytes) (a : Option (List Arg)) : Except Abort (Device × Option GoError) :=
  let cmd := match a with
    | none => format
    | some args => sprintf format args
  match d.WriteString (TrimSpace cmd ++ ['\n']) with
  | Except.error x => Except.error x
  | Except.ok (d1, _, err) => Except.ok (d1, err)

/-- Lines 86 to 91 of `(*Device).Query`: arm the deadline, read one line. -/
def Device.queryRead (d : Device) (now : Int) :
    Except Abort (Device × Bytes × Option GoError) :=
  match d.conn with
  | none => Except.error Abort.nilConn
  | some c =>
    let c1 := (c.SetReadDeadline (readDeadline d.timeout now)).1
    match (NewReader c1).ReadString '\n' with
    | Except.error x => Except.error x
    | Except.ok (b, s, err) => Except.ok ({ d with conn := some b.rd }, s, err)

/-- Go `(*Device).Query`. -/
def Device.Query (sprintf : Bytes → List Arg → Bytes) (d : Device) (now : Int)
    (cmd : Bytes) : Except Abort (Device × Bytes × Option GoError) :=
  if cmd ≠ [] then
    match d.Command sprintf cmd none with
    | Except.error x => Except.error x
    | Except.ok (d1, some err) => Except.ok (d1, [], some err)
    | Except.ok (d1, none) => d1.queryRead now
  else d.queryRead now

/-- Go `(*Device).SetTimeout`. -/
def Device.SetTimeout (d : Device) (timeout : Int) : Device :=
  { d with timeout := timeout }

/-! ## `fmt.Sprintf`, a fragment -/

/-- Go type name of an argument, as `fmt` prints it in its reports. -/
def Arg.typeName : Arg → Bytes
  | Arg.str _ => "string".toList
  | Arg.int _ => "int".toList

/-- Default (`%v`) rendering of an argument. -/
def Arg.render : Arg → Bytes
  | Arg.str s => s
  | Arg.int i => (toString i).toList

/-- Go `(*pp).printArg` for the verbs `s`, `d` and `v`: a verb that does not fit
the argument yields `%!verb(type=value)`. -/
def printArg (a : Arg) (verb : Char) : Bytes :=
  match a with
  | Arg.str s =>
    if verb = 's' ∨ verb = 'v' then s
    else "%!".toList ++ [verb] ++ "(".toList ++ a.typeName ++ "=".toList ++ a.render ++ ")".toList
  | Arg.int i =>
    if verb = 'd' ∨ verb = 'v' then (toString i).toList
    else "%!".toList ++ [verb] ++ "(".toList ++ a.typeName ++ "=".toList ++ a.render ++ ")".toList

/-- The report `fmt` appends for arguments no verb consumed. -/
def extraArgs (args : List Arg) : Bytes :=
  if args = [] then []
  else
    "%!(EXTRA ".toList ++
      ", ".toList.intercalate (args.map (fun a => a.typeName ++ "=".toList ++ a.render)) ++
      ")".toList

/-- Go `(*pp).doPrintf` on the fragment of format strings in which every `%`
is followed directly by `s`, `d`, `v` or `%`, or ends the string.  The result
is `none` outside this fragment (flags, widths, indexes, other verbs). -/
def doPrintf : Bytes → List Arg → Option Bytes
  | [], args => some (extraArgs args)
  | c :: [], args =>
    if c = '%' then some ("%!(NOVERB)".toList ++ extraArgs args)
    else some (c :: extraArgs args)
  | c :: v :: rest, args =>
    if c = '%' then
      if v = '%' then (doPrintf rest args).map (fun r => '%' :: r)
      else if v = 's' ∨ v = 'd' ∨ v = 'v' then
        match args with
        | [] => (doPrintf rest []).map (fun r => "%!".toList ++ [v] ++ "(MISSING)".toList ++ r)
        | a :: as => (doPrintf rest as).map (fun r => printArg a v ++ r)
      else none
    else (doPrintf (v :: rest) args).map (fun r => c :: r)

/-- A formatter that is Go `fmt.Sprintf` on the fragment of `doPrintf`; outside
the fragment its value (the format itself) is a placeholder that no result
below relies on. -/
def Sprintf (format : Bytes) (args : List Arg) : Bytes :=
  (doPrintf format args).getD format

/-! ## Resource strings -/

/-- Go `VisaResource`, the two fields `NewDevice` uses. -/
structure VisaResource where
  hostAddress : Bytes
  port : Int
  deriving DecidableEq, Repr

/-- Split a resource string at every `::`. -/
def splitSegments : Bytes → List Bytes
  | [] => [[]]
  | c :: [] => [[c]]
  | c :: e :: rest =>
    if c = ':' ∧ e = ':' then [] :: splitSegments rest
    else
      match splitSegments (e :: rest) with
      | [] => [[c]]
      | seg :: segs => (c :: seg) :: segs

/-- Value of a non-empty string of decimal digits. -/
def parseDecimal (s : Bytes) : Option Nat :=
  if s ≠ [] ∧ s.all Char.isDigit then
    some (s.foldl (fun n c => 10 * n + (c.toNat - '0'.toNat)) 0)
  else none

/-- Parse failure: wrong segment count or empty host. -/
def errMalformed : GoError := GoError.resource 1

/-- Parse failure: unsupported interface type or sub-type. -/
def errUnsupported : GoError := GoError.resource 2

/-- Parse failure: the port token is not a number. -/
def errPort : GoError := GoError.resource 3

/-- Modelled from the spec: `NewVisaResource` is defined in a file of the
repository that is not part of the sources at hand.  Per the spec's parser
contract the string is split at the segment delimiter `::`; the first token
must be exactly the supported interface type `TCPIP`; the second token is the
host address, which must not be empty; a following numeric token, if present, is
the port; a trailing literal token selects the `SOCKET` sub-type.  The three
failures (segment count, interface type, non-numeric port) are distinct errors
and no partial result is returned.  What an omitted port yields is left to the
implementation by the spec: `defaultPort` is that choice (`none`: fail). -/
def NewVisaResource (defaultPort : Option Int) (address : Bytes) :
    Except GoError VisaResource :=
  match splitSegments address with
  | [] => Except.error errMalformed
  | ty :: rest =>
    if ty ≠ "TCPIP".toList then Except.error errUnsupported
    else
      match rest with
      | [host, port, sub] =>
        if host = [] then Except.error errMalformed
        else
          match parseDecimal port with
          | none => Except.error errPort
          | some p =>
            if sub = "SOCKET".toList then
              Except.ok { hostAddress := host, port := p }
            else Except.error errUnsupported
      | [host, tok] =>
        if host = [] then Except.error errMalformed
        else
          match parseDecimal tok with
          | some p => Except.ok { hostAddress := host, port := p }
          | none =>
            if tok = "SOCKET".toList then
              match defaultPort with
              | some p => Except.ok { hostAddress := host, port := p }
              | none => Except.error errMalformed
            else Except.error errPort
      | [host] =>
        if host = [] then Except.error errMalformed
        else
          match defaultPort with
          | some p => Except.ok { hostAddress := host, port := p }
          | none => Except.error errMalformed
      | _ => Except.error errMalformed

/-! ## Opening a device -/

/-- The network as `net.Dial` sees it: what dialling an address yields, and
the addresses dialled so far. -/
structure Network where
  answer : Bytes → Except GoError Conn
  dialled : List Bytes

/-- Go `net.Dial("tcp", address)`. -/
def Network.Dial (nw : Network) (address : Bytes) : Network × Except GoError Conn :=
  ({ nw with dialled := nw.dialled ++ [address] }, nw.answer address)

/-- The zero value `Device{}`. -/
def Device.zero : Device :=
  { conn := none, timeout := 0 }

/-- Go `NewDevice`; `parse` stands for `NewVisaResource`. -/
def NewDevice (parse : Bytes → Except GoError VisaResource)
    (sprintf : Bytes → List Arg → Bytes) (nw : Network) (address : Bytes)
    (timeout : Int) : Network × Device × Option GoError :=
  let d : Device := Device.zero
  match parse address with
  | Except.error err => (nw, d, some err)
  | Except.ok v =>
    let tcpAddress := sprintf "%s:%d".toList [Arg.str v.hostAddress, Arg.int v.port]
    match nw.Dial tcpAddress with
    | (nw1, Except.error err) => (nw1, d, some err)
    | (nw1, Except.ok c) => (nw1, { d with conn := some c, timeout := timeout }, none)

/-! ## Sequences of operations -/

/-- One call on a `Device`; reads and queries carry the clock reading they see. -/
inductive Op where
  | write (p : Bytes)
  | writeString (s : Bytes)
  | command (format : Bytes) (a : Option (List Arg))
  | read (now : Int) (n : Nat)
  | query (now : Int) (cmd : Bytes)
  | setTimeout (ms : Int)
  | close
  deriving DecidableEq, Repr

/-- The operations that move data: everything but `SetTimeout` and `Close`. -/
def Op.isTransfer : Op → Bool
  | Op.setTimeout _ => false
  | Op.close => false
  | _ => true

/-- Perform one call; the result is the device afterwards and the error returned
(`SetTimeout` returns nothing, rendered as `none`). -/
def Device.step (sprintf : Bytes → List Arg → Bytes) (d : Device) :
    Op → Except Abort (Device × Option GoError)
  | Op.write p => (d.Write p).map (fun r => (r.1, r.2.2))
  | Op.writeString s => (d.WriteString s).map (fun r => (r.1, r.2.2))
  | Op.command format a => d.Command sprintf format a
  | Op.read now n => (d.Read now n).map (fun r => (r.1, r.2.2))
  | Op.query now cmd => (d.Query sprintf now cmd).map (fun r => (r.1, r.2.2))
  | Op.setTimeout ms => Except.ok (d.SetTimeout ms, none)
  | Op.close => d.Close

/-- Perform calls in order, collecting each call with the error it returned. -/
def Device.run (sprintf : Bytes → List Arg → Bytes) :
    Device → List Op → Except Abort (Device × List (Op × Option GoError))
  | d, [] => Except.ok (d, [])
  | d, op :: ops =>
    match d.step sprintf op with
    | Except.error x => Except.error x
    | Except.ok (d1, err) =>
      match Device.run sprintf d1 ops with
      | Except.error x => Except.error x
      | Except.ok (d2, rs) => Except.ok (d2, (op, err) :: rs)

/-- The connection of the device is present and closed. -/
def Device.isClosed (d : Device) : Bool :=
  match d.conn with
  | none => false
  | some c => c.closed

/-- The calls logged on the connection of a device. -/
def Device.log (d : Device) : List Call :=
  match d.conn with
  | none => []
  | some c => c.log

/-- The connection log after an operation, if the operation returned. -/
def resultLog {α : Type} (r : Except Abort (Device × α)) : Option (List Call) :=
  match r with
  | Except.ok (d, _) => some d.log
  | Except.error _ => none

/-- The read deadline armed on the connection after an operation, if the
operation returned. -/
def resultDeadline {α : Type} (r : Except Abort (Device × α)) : Option Int :=
  match r with
  | Except.ok (d, _) => d.conn.map Conn.deadline
  | Except.error _ => none

/-! ## Sample values -/

/-- A fresh open connection on which the transport behaves as scripted. -/
def freshConn (inbound : List (Bytes × Option GoError))
    (writeFaults : List (Option (Nat × GoError))) : Conn :=
  { closed := false, deadline := zeroTime, inbound := inbound, writeFaults := writeFaults,
    closeErr := none, outbound := [], log := [] }

/-- Two lines arrive in one delivery; afterwards reads time out. -/
def lineConn : Conn :=
  freshConn [("A\nB\n".toList, none), ([], some GoError.timeout)] []

/-- Two lines arrive in a delivery each. -/
def pairConn : Conn :=
  freshConn [("A\n".toList, none), ("B\n".toList, none)] []

/-- The first write fails before any byte is sent. -/
def faultyConn : Conn :=
  freshConn [] [some (0, GoError.transport 7)]

/-- A network on which exactly `host:5025` accepts connections. -/
def sampleNetwork : Network :=
  { answer := fun address =>
      if address = "host:5025".toList then Except.ok lineConn
      else Except.error (GoError.dial 1),
    dialled := [] }

/-- The connection `c1` arises from `c` by read calls alone, which consumed
exactly `data` from the inbound stream. -/
structure ReadsTo (c c1 : Conn) (data : Bytes) : Prop where
  closed : c1.closed = c.closed
  deadline : c1.deadline = c.deadline
  writeFaults : c1.writeFaults = c.writeFaults
  closeErr : c1.closeErr = c.closeErr
  outbound : c1.outbound = c.outbound
  stream : c.stream = data ++ c1.stream
  weight : c1.weight + data.length ≤ c.weight
  log : ∃ ns : List Nat, c1.log = c.log ++ ns.map Call.read

/-! # Results -/

/-! ## Searching for the delimiter -/

theorem IndexByte_none {l : Bytes} {c : Char} (h : IndexByte l c = none) : c ∉ l := by
  induction l with
  | nil => simp
  | cons x xs ih =>
    simp only [IndexByte] at h
    split at h
    · simp at h
    · rename_i hx
      simp only [Option.map_eq_none'] at h
      simp only [List.mem_cons, not_or]
      exact ⟨fun hc => hx hc.symm, ih h⟩

theorem IndexByte_some {l : Bytes} {c : Char} {i : Nat} (h : IndexByte l c = some i) :
    l.take (i + 1) = l.take i ++ [c] ∧ c ∉ l.take i ∧ i < l.length := by
  induction l generalizing i with
  | nil => simp [IndexByte] at h
  | cons x xs ih =>
    simp only [IndexByte] at h
    split at h
    · rename_i hx
      simp only [Option.some.injEq] at h
      subst h
      simp [hx]
    · rename_i hx
      simp only [Option.map_eq_some'] at h
      obtain ⟨j, hj, rfl⟩ := h
      obtain ⟨h1, h2, h3⟩ := ih hj
      refine ⟨?_, ?_, ?_⟩
      · simp [List.take_succ_cons, h1]
      · simp only [List.take_succ_cons, List.mem_cons, not_or]
        exact ⟨fun hc => hx hc.symm, h2⟩
      · simp only [List.length_cons]
        omega

/-! ## Reading from the connection -/

theorem ReadsTo.rfl_nil (c : Conn) : ReadsTo c c [] :=
  ⟨rfl, rfl, rfl, rfl, rfl, by simp, by simp, ⟨[], by simp⟩⟩

theorem ReadsTo.trans {a b c : Conn} {d1 d2 : Bytes} (h1 : ReadsTo a b d1)
    (h2 : ReadsTo b c d2) : ReadsTo a c (d1 ++ d2) := by
  refine ⟨h2.closed.trans h1.closed, h2.deadline.trans h1.deadline,
    h2.writeFaults.trans h1.writeFaults, h2.closeErr.trans h1.closeErr,
    h2.outbound.trans h1.outbound, ?_, ?_, ?_⟩
  · rw [h1.stream, h2.stream, List.append_assoc]
  · have := h1.weight
    have := h2.weight
    simp only [List.length_append]
    omega
  · obtain ⟨n1, e1⟩ := h1.log
    obtain ⟨n2, e2⟩ := h2.log
    exact ⟨n1 ++ n2, by rw [e2, e1, List.map_append, List.append_assoc]⟩

theorem Conn.Read_closed (c : Conn) (n : Nat) (hc : c.closed = true) :
    c.Read n = ({ c with log := c.log ++ [Call.read n] }, [], some GoError.netClosed) := by
  simp [Conn.Read, hc]

theorem Conn.Read_zero (c : Conn) (hc : c.closed = false) :
    c.Read 0 = ({ c with log := c.log ++ [Call.read 0] }, [], none) := by
  simp [Conn.Read, hc]

theorem Conn.Read_nil (c : Conn) (n : Nat) (hc : c.closed = false) (hn : n ≠ 0)
    (hin : c.inbound = []) :
    c.Read n = ({ c with log := c.log ++ [Call.read n] }, [], some GoError.eof) := by
  simp [Conn.Read, hc, hn, hin]

theorem Conn.Read_whole (c : Conn) (n : Nat) (data : Bytes) (err : Option GoError)
    (rest : List (Bytes × Option GoError)) (hc : c.closed = false) (hn : n ≠ 0)
    (hin : c.inbound = (data, err) :: rest) (hl : data.length ≤ n) :
    c.Read n = ({ c with log := c.log ++ [Call.read n], inbound := rest }, data, err) := by
  simp [Conn.Read, hc, hn, hin, hl]

theorem Conn.Read_part (c : Conn) (n : Nat) (data : Bytes) (err : Option GoError)
    (rest : List (Bytes × Option GoError)) (hc : c.closed = false) (hn : n ≠ 0)
    (hin : c.inbound = (data, err) :: rest) (hl : n < data.length) :
    c.Read n = ({ c with log := c.log ++ [Call.read n], inbound := (data.drop n, err) :: rest },
      data.take n, none) := by
  have : ¬ data.length ≤ n := by omega
  simp [Conn.Read, hc, hn, hin, this]

theorem Conn.Read_spec (c : Conn) (n : Nat) :
    ReadsTo c (c.Read n).1 (c.Read n).2.1 ∧
    (c.Read n).1.log = c.log ++ [Call.read n] ∧
    (c.Read n).2.1.length ≤ n ∧
    (c.Read n).1.weight + (c.Read n).2.1.length +
      (if (c.Read n).2.2 = some GoError.errBufferFull then 1 else 0) ≤ c.weight := by
  cases hc : c.closed with
  | true =>
    rw [Conn.Read_closed c n hc]
    refine ⟨⟨rfl, rfl, rfl, rfl, rfl, ?_, ?_, ⟨[n], ?_⟩⟩, rfl, ?_, ?_⟩ <;>
      simp [Conn.stream, Conn.weight]
  | false =>
    by_cases hn : n = 0
    · subst hn
      rw [Conn.Read_zero c hc]
      refine ⟨⟨rfl, rfl, rfl, rfl, rfl, ?_, ?_, ⟨[0], ?_⟩⟩, rfl, ?_, ?_⟩ <;>
        simp [Conn.stream, Conn.weight]
    · cases hin : c.inbound with
      | nil =>
        rw [Conn.Read_nil c n hc hn hin]
        refine ⟨⟨rfl, rfl, rfl, rfl, rfl, ?_, ?_, ⟨[n], ?_⟩⟩, rfl, ?_, ?_⟩ <;>
          simp [Conn.stream, Conn.weight]
      | cons x rest =>
        obtain ⟨data, err⟩ := x
        by_cases hl : data.length ≤ n
        · rw [Conn.Read_whole c n data err rest hc hn hin hl]
          refine ⟨⟨rfl, rfl, rfl, rfl, rfl, ?_, ?_, ⟨[n], ?_⟩⟩, rfl, hl, ?_⟩
          · simp [Conn.stream, hin]
          · simp only [Conn.weight, hin, List.map_cons, List.sum_cons]
            omega
          · simp
          · simp only [Conn.weight, hin, List.map_cons, List.sum_cons]
            split <;> omega
        · have hlt : n < data.length := by omega
          rw [Conn.Read_part c n data err rest hc hn hin hlt]
          refine ⟨⟨rfl, rfl, rfl, rfl, rfl, ?_, ?_, ⟨[n], ?_⟩⟩, rfl, ?_, ?_⟩
          · simp only [Conn.stream, hin, List.map_cons, List.flatten_cons]
            rw [← List.append_assoc, List.take_append_drop]
          · simp only [Conn.weight, hin, List.map_cons, List.sum_cons, List.length_drop,
              List.length_take]
            omega
          · simp
          · simp only [List.length_take]
            omega
          · simp only [Conn.weight, hin, List.map_cons, List.sum_cons, List.length_drop,
              List.length_take]
            simp
            omega

/-! ## The buffered reader -/

theorem fillLoop_spec (i : Nat) (b : Reader) :
    ∃ data : Bytes, ReadsTo b.rd (fillLoop i b).rd data ∧
      (fillLoop i b).buf = b.buf ++ data ∧
      ((fillLoop i b).err ≠ none ∨ data ≠ []) ∧
      (b.err = none →
        (fillLoop i b).rd.weight + data.length +
          (if (fillLoop i b).err = some GoError.errBufferFull then 1 else 0) ≤ b.rd.weight) := by
  induction i generalizing b with
  | zero =>
    refine ⟨[], ReadsTo.rfl_nil _, by simp [fillLoop], Or.inl (by simp [fillLoop]), ?_⟩
    intro _
    simp [fillLoop]
  | succ i ih =>
    have hsp := Conn.Read_spec b.rd (defaultBufSize - b.buf.length)
    rcases hrd : b.rd.Read (defaultBufSize - b.buf.length) with ⟨c, data, e⟩
    rw [hrd] at hsp
    obtain ⟨h1, _, _, h4⟩ := hsp
    simp only at h1 h4
    cases e with
    | some e1 =>
      have hf : fillLoop (i + 1) b = { rd := c, buf := b.buf ++ data, err := some e1 } := by
        simp [fillLoop, hrd]
      rw [hf]
      exact ⟨data, h1, rfl, Or.inl (by simp), fun _ => h4⟩
    | none =>
      by_cases hd : data.length > 0
      · have hf : fillLoop (i + 1) b = { rd := c, buf := b.buf ++ data, err := b.err } := by
          simp [fillLoop, hrd, hd]
        rw [hf]
        refine ⟨data, h1, rfl, Or.inr ?_, ?_⟩
        · intro h0
          simp [h0] at hd
        · intro hb
          simp only [hb]
          simpa using h4
      · have hf : fillLoop (i + 1) b =
            fillLoop i { rd := c, buf := b.buf ++ data, err := b.err } := by
          simp [fillLoop, hrd, hd]
        rw [hf]
        obtain ⟨data2, g1, g2, g3, g4⟩ := ih { rd := c, buf := b.buf ++ data, err := b.err }
        refine ⟨data ++ data2, h1.trans g1, ?_, ?_, ?_⟩
        · rw [g2, List.append_assoc]
        · rcases g3 with g3 | g3
          · exact Or.inl g3
          · exact Or.inr (by simp [g3])
        · intro hb
          have g4 := g4 hb
          simp only at g4
          simp only [List.length_append]
          simp only [reduceCtorEq, if_false] at h4
          omega

theorem fill_spec (b : Reader) :
    ∃ data : Bytes, ReadsTo b.rd b.fill.rd data ∧
      b.fill.buf = b.buf ++ data ∧
      (b.fill.err ≠ none ∨ data ≠ []) ∧
      (b.err = none →
        b.fill.rd.weight + data.length +
          (if b.fill.err = some GoError.errBufferFull then 1 else 0) ≤ b.rd.weight) :=
  fillLoop_spec maxConsecutiveEmptyReads b

theorem not_mem_of_take_drop {l : Bytes} {c : Char} {s : Nat} (h1 : c ∉ l.take s)
    (h2 : c ∉ l.drop s) : c ∉ l := by
  intro h
  rw [← List.take_append_drop s l, List.mem_append] at h
  exact h.elim h1 h2

theorem readSliceLoop_spec (delim : Char) (fuel s : Nat) (b b1 : Reader) (line : Bytes)
    (e : Option GoError) (h : readSliceLoop delim fuel s b = Except.ok (b1, line, e))
    (hs : delim ∉ b.buf.take s) :
    ∃ data : Bytes, ReadsTo b.rd b1.rd data ∧ b.buf ++ data = line ++ b1.buf ∧
      (e = none → ∃ pre : Bytes, line = pre ++ [delim] ∧ delim ∉ pre) ∧
      (e ≠ none → b1.buf = [] ∧ delim ∉ line ∧ b1.err = none) ∧
      (e = some GoError.errBufferFull →
        b1.rd.weight + 1 ≤ b.rd.weight + b.buf.length +
          (if b.err = some GoError.errBufferFull then 1 else 0)) := by
  induction fuel generalizing s b b1 line e with
  | zero => simp [readSliceLoop] at h
  | succ fuel ih =>
    unfold readSliceLoop at h
    cases hidx : IndexByte (b.buf.drop s) delim with
    | some i =>
      simp only [hidx, Except.ok.injEq, Prod.mk.injEq] at h
      obtain ⟨rfl, rfl, rfl⟩ := h
      obtain ⟨k1, k2, _⟩ := IndexByte_some hidx
      refine ⟨[], ReadsTo.rfl_nil _, by simp, ?_, by simp, by simp⟩
      intro _
      refine ⟨b.buf.take (s + i), ?_, ?_⟩
      · have t1 : b.buf.take (s + (i + 1)) = b.buf.take s ++ (b.buf.drop s).take (i + 1) :=
          List.take_add _ _ _
        have t2 : b.buf.take (s + i) = b.buf.take s ++ (b.buf.drop s).take i :=
          List.take_add _ _ _
        rw [Nat.add_assoc, t1, t2, k1, List.append_assoc]
      · rw [List.take_add, List.mem_append]
        exact fun hm => hm.elim hs k2
    | none =>
      have hnot : delim ∉ b.buf := not_mem_of_take_drop hs (IndexByte_none hidx)
      simp only [hidx] at h
      cases herr : b.err with
      | some e1 =>
        simp only [herr, Except.ok.injEq, Prod.mk.injEq] at h
        obtain ⟨rfl, rfl, rfl⟩ := h
        refine ⟨[], ReadsTo.rfl_nil _, by simp, by simp, fun _ => ⟨rfl, hnot, rfl⟩, ?_⟩
        intro he
        simp only [herr, he, if_true]
        omega
      | none =>
        simp only [herr] at h
        by_cases hfull : b.buf.length ≥ defaultBufSize
        · simp only [hfull, if_true, Except.ok.injEq, Prod.mk.injEq] at h
          obtain ⟨rfl, rfl, rfl⟩ := h
          refine ⟨[], ReadsTo.rfl_nil _, by simp, by simp, fun _ => ⟨rfl, hnot, rfl⟩, ?_⟩
          intro _
          have : defaultBufSize = 4096 := rfl
          simp only [herr, reduceCtorEq, if_false]
          omega
        · simp only [hfull, if_false] at h
          obtain ⟨data, f1, f2, _, f4⟩ := fill_spec b
          have hs2 : delim ∉ b.fill.buf.take b.buf.length := by
            rw [f2, List.take_left]
            exact hnot
          obtain ⟨data2, g1, g2, g3, g4, g5⟩ := ih b.buf.length b.fill b1 line e h hs2
          refine ⟨data ++ data2, f1.trans g1, ?_, g3, g4, ?_⟩
          · rw [← List.append_assoc, ← f2, g2]
          · intro he
            have g5 := g5 he
            have f4 := f4 herr
            rw [f2, List.length_append] at g5
            simp only [herr, reduceCtorEq, if_false]
            omega

theorem readSliceLoop_ok (delim : Char) (fuel s : Nat) (b : Reader) (h1 : 1 ≤ fuel)
    (h2 : b.err = none → defaultBufSize + 1 ≤ fuel + b.buf.length) :
    ∃ r, readSliceLoop delim fuel s b = Except.ok r := by
  induction fuel generalizing s b with
  | zero => omega
  | succ fuel ih =>
    unfold readSliceLoop
    cases hidx : IndexByte (b.buf.drop s) delim with
    | some i => exact ⟨_, rfl⟩
    | none =>
      cases herr : b.err with
      | some e1 => exact ⟨_, rfl⟩
      | none =>
        by_cases hfull : b.buf.length ≥ defaultBufSize
        · simp only [hfull, if_true]
          exact ⟨_, rfl⟩
        · simp only [hfull, if_false]
          have h2 := h2 herr
          obtain ⟨data, _, f2, f3, _⟩ := fill_spec b
          apply ih
          · omega
          · intro hnone
            rcases f3 with f3 | f3
            · exact absurd hnone f3
            · have : 0 < data.length := List.length_pos.mpr f3
              rw [f2, List.length_append]
              omega

theorem ReadSlice_ok (b : Reader) (delim : Char) : ∃ r, b.ReadSlice delim = Except.ok r :=
  readSliceLoop_ok delim (defaultBufSize + 1) 0 b (by omega) (fun _ => by omega)

theorem ReadSlice_spec (b b1 : Reader) (delim : Char) (line : Bytes) (e : Option GoError)
    (h : b.ReadSlice delim = Except.ok (b1, line, e)) :
    ∃ data : Bytes, ReadsTo b.rd b1.rd data ∧ b.buf ++ data = line ++ b1.buf ∧
      (e = none → ∃ pre : Bytes, line = pre ++ [delim] ∧ delim ∉ pre) ∧
      (e ≠ none → b1.buf = [] ∧ delim ∉ line ∧ b1.err = none) ∧
      (e = some GoError.errBufferFull →
        b1.rd.weight + 1 ≤ b.rd.weight + b.buf.length +
          (if b.err = some GoError.errBufferFull then 1 else 0)) :=
  readSliceLoop_spec delim (defaultBufSize + 1) 0 b b1 line e h (by simp)

theorem collectLoop_spec (delim : Char) (fuel : Nat) (b b1 : Reader) (full full1 : List Bytes)
    (frag : Bytes) (e : Option GoError)
    (h : collectLoop delim fuel b full = Except.ok (b1, full1, frag, e)) :
    ∃ data : Bytes, ReadsTo b.rd b1.rd data ∧
      full.flatten ++ b.buf ++ data = full1.flatten ++ frag ++ b1.buf ∧
      (delim ∉ full.flatten → delim ∉ full1.flatten) ∧
      (e = none → ∃ pre : Bytes, frag = pre ++ [delim] ∧ delim ∉ pre) ∧
      (e ≠ none → b1.buf = [] ∧ delim ∉ frag) := by
  induction fuel generalizing b full with
  | zero => simp [collectLoop] at h
  | succ fuel ih =>
    unfold collectLoop at h
    cases hrs : b.ReadSlice delim with
    | error a => simp [hrs] at h
    | ok r =>
      obtain ⟨b2, frag2, e2⟩ := r
      obtain ⟨data, r1, r2, r3, r4, _⟩ := ReadSlice_spec b b2 delim frag2 e2 hrs
      cases e2 with
      | none =>
        simp only [hrs, Except.ok.injEq, Prod.mk.injEq] at h
        obtain ⟨rfl, rfl, rfl, rfl⟩ := h
        refine ⟨data, r1, ?_, id, r3, by simp⟩
        rw [List.append_assoc, r2, List.append_assoc]
      | some e3 =>
        simp only [hrs] at h
        obtain ⟨q1, q2, _⟩ := r4 (by simp)
        by_cases hbf : e3 = GoError.errBufferFull
        · simp only [hbf, if_true] at h
          obtain ⟨data2, g1, g2, g3, g4, g5⟩ := ih b2 (full ++ [frag2]) h
          refine ⟨data ++ data2, r1.trans g1, ?_, ?_, g4, g5⟩
          · rw [← g2, q1]
            simp only [List.flatten_append, List.flatten_cons, List.flatten_nil,
              List.append_nil, List.append_assoc]
            rw [← List.append_assoc b.buf, r2, q1, List.append_nil]
          · intro hf
            apply g3
            simp only [List.flatten_append, List.flatten_cons, List.flatten_nil,
              List.append_nil, List.mem_append, not_or]
            exact ⟨hf, q2⟩
        · simp only [hbf, if_false, Except.ok.injEq, Prod.mk.injEq] at h
          obtain ⟨rfl, rfl, rfl, rfl⟩ := h
          refine ⟨data, r1, ?_, id, by simp, fun _ => ⟨q1, q2⟩⟩
          rw [List.append_assoc, r2, List.append_assoc]

theorem collectLoop_ok (delim : Char) (fuel : Nat) (b : Reader) (full : List Bytes)
    (hf : b.rd.weight + b.buf.length +
      (if b.err = some GoError.errBufferFull then 1 else 0) + 1 ≤ fuel) :
    ∃ r, collectLoop delim fuel b full = Except.ok r := by
  induction fuel generalizing b full with
  | zero => omega
  | succ fuel ih =>
    unfold collectLoop
    obtain ⟨r, hrs⟩ := ReadSlice_ok b delim
    obtain ⟨b2, frag2, e2⟩ := r
    obtain ⟨data, _, _, _, r4, r5⟩ := ReadSlice_spec b b2 delim frag2 e2 hrs
    cases e2 with
    | none =>
      simp only [hrs]
      exact ⟨_, rfl⟩
    | some e3 =>
      simp only [hrs]
      by_cases hbf : e3 = GoError.errBufferFull
      · simp only [hbf, if_true]
        obtain ⟨q1, _, q3⟩ := r4 (by simp)
        have r5 := r5 (by rw [hbf])
        apply ih
        rw [q1, q3]
        simp only [List.length_nil, reduceCtorEq, if_false]
        omega
      · simp only [hbf, if_false]
        exact ⟨_, rfl⟩

theorem ReadString_ok (b : Reader) (delim : Char) : ∃ r, b.ReadString delim = Except.ok r := by
  unfold Reader.ReadString Reader.collectFragments
  obtain ⟨r, hr⟩ := collectLoop_ok delim (b.rd.weight + b.buf.length + 2) b []
    (by split <;> omega)
  obtain ⟨b1, full, frag, err⟩ := r
  simp only [hr]
  exact ⟨_, rfl⟩

theorem ReadString_spec (b b1 : Reader) (delim : Char) (s : Bytes) (e : Option GoError)
    (h : b.ReadString delim = Except.ok (b1, s, e)) :
    ∃ data : Bytes, ReadsTo b.rd b1.rd data ∧ b.buf ++ data = s ++ b1.buf ∧
      (e = none → ∃ pre : Bytes, s = pre ++ [delim] ∧ delim ∉ pre) ∧
      (e ≠ none → b1.buf = [] ∧ delim ∉ s) := by
  unfold Reader.ReadString Reader.collectFragments at h
  cases hc : collectLoop delim (b.rd.weight + b.buf.length + 2) b [] with
  | error a => simp [hc] at h
  | ok r =>
    obtain ⟨b2, full, frag, err⟩ := r
    simp only [hc, Except.ok.injEq, Prod.mk.injEq] at h
    obtain ⟨rfl, rfl, rfl⟩ := h
    obtain ⟨data, g1, g2, g3, g4, g5⟩ := collectLoop_spec delim _ b b2 [] full frag err hc
    have hfull : delim ∉ full.flatten := g3 (by simp)
    refine ⟨data, g1, by simpa using g2, ?_, ?_⟩
    · intro he
      obtain ⟨pre, p1, p2⟩ := g4 he
      refine ⟨full.flatten ++ pre, by rw [p1, List.append_assoc], ?_⟩
      rw [List.mem_append]
      exact fun hm => hm.elim hfull p2
    · intro he
      obtain ⟨q1, q2⟩ := g5 he
      refine ⟨q1, ?_⟩
      rw [List.mem_append]
      exact fun hm => hm.elim hfull q2

/-! ## Device operations as connection calls -/

theorem Conn.Write_frame (c : Conn) (p : Bytes) :
    (c.Write p).1.log = c.log ++ [Call.write p] ∧ (c.Write p).1.inbound = c.inbound ∧
    (c.Write p).1.deadline = c.deadline ∧ (c.Write p).1.closed = c.closed ∧
    (c.Write p).1.closeErr = c.closeErr := by
  unfold Conn.Write
  cases hc : c.closed with
  | true => simp
  | false =>
    simp only [Bool.false_eq_true, if_false]
    cases hw : c.writeFaults with
    | nil => simp [hc]
    | cons x fs =>
      cases x with
      | none => simp [hc]
      | some ke =>
        obtain ⟨k, e⟩ := ke
        simp [hc]

theorem Conn.Write_closed (c : Conn) (p : Bytes) (hc : c.closed = true) :
    c.Write p = ({ c with log := c.log ++ [Call.write p] }, 0, some GoError.netClosed) := by
  simp [Conn.Write, hc]

theorem Conn.SetReadDeadline_frame (c : Conn) (t : Int) :
    (c.SetReadDeadline t).1.log = c.log ++ [Call.setReadDeadline t] ∧
    (c.SetReadDeadline t).1.inbound = c.inbound ∧
    (c.SetReadDeadline t).1.closed = c.closed ∧
    (c.SetReadDeadline t).1.outbound = c.outbound ∧
    (c.SetReadDeadline t).1.writeFaults = c.writeFaults ∧
    (c.SetReadDeadline t).1.closeErr = c.closeErr ∧
    (c.closed = false → (c.SetReadDeadline t).1.deadline = t) := by
  unfold Conn.SetReadDeadline
  cases hc : c.closed <;> simp [hc]

theorem Device.Write_eq (c : Conn) (t : Int) (p : Bytes) :
    Device.Write { conn := some c, timeout := t } p =
      Except.ok ({ conn := some (c.Write p).1, timeout := t }, (c.Write p).2.1, (c.Write p).2.2) := by
  rfl

theorem Device.Command_eq (sprintf : Bytes → List Arg → Bytes) (c : Conn) (t : Int)
    (format : Bytes) (a : Option (List Arg)) :
    Device.Command sprintf { conn := some c, timeout := t } format a =
      Except.ok ({ conn := some (c.Write (TrimSpace (a.elim format (sprintf format)) ++ ['\n'])).1,
                   timeout := t },
        (c.Write (TrimSpace (a.elim format (sprintf format)) ++ ['\n'])).2.2) := by
  cases a <;> rfl

theorem Device.Read_eq (c : Conn) (t : Int) (now : Int) (n : Nat) :
    Device.Read { conn := some c, timeout := t } now n =
      Except.ok ({ conn := some (((c.SetReadDeadline (readDeadline t now)).1.Read n).1), timeout := t },
        ((c.SetReadDeadline (readDeadline t now)).1.Read n).2.1,
        ((c.SetReadDeadline (readDeadline t now)).1.Read n).2.2) := by
  rfl

theorem TrimSpace_getLast (s : Bytes) : (TrimSpace s).getLast? ≠ some '\n' := by
  unfold TrimSpace
  rw [List.getLast?_reverse]
  intro h
  have := List.head?_dropWhile_not isSpace (s.dropWhile isSpace).reverse
  rw [h] at this
  simp [isSpace] at this

theorem Device.queryRead_spec (c : Conn) (t : Int) (now : Int) :
    ∃ (b : Reader) (s : Bytes) (e : Option GoError) (data : Bytes),
      Device.queryRead { conn := some c, timeout := t } now =
        Except.ok ({ conn := some b.rd, timeout := t }, s, e) ∧
      ReadsTo (c.SetReadDeadline (readDeadline t now)).1 b.rd data ∧
      data = s ++ b.buf ∧
      (e = none → ∃ pre : Bytes, s = pre ++ ['\n'] ∧ '\n' ∉ pre) ∧
      (e ≠ none → b.buf = [] ∧ '\n' ∉ s) := by
  obtain ⟨r, hr⟩ := ReadString_ok (NewReader (c.SetReadDeadline (readDeadline t now)).1) '\n'
  obtain ⟨b, s, e⟩ := r
  obtain ⟨data, h1, h2, h3, h4⟩ := ReadString_spec _ b '\n' s e hr
  refine ⟨b, s, e, data, ?_, h1, by simpa [NewReader] using h2, h3, h4⟩
  simp only [Device.queryRead, hr]

theorem Device.Query_empty (sprintf : Bytes → List Arg → Bytes) (d : Device) (now : Int) :
    Device.Query sprintf d now [] = d.queryRead now := by
  simp [Device.Query]

theorem Device.Query_nonempty (sprintf : Bytes → List Arg → Bytes) (c : Conn) (t : Int)
    (now : Int) (cmd : Bytes) (h : cmd ≠ []) :
    Device.Query sprintf { conn := some c, timeout := t } now cmd =
      match (c.Write (TrimSpace cmd ++ ['\n'])).2.2 with
      | some err =>
        Except.ok ({ conn := some (c.Write (TrimSpace cmd ++ ['\n'])).1, timeout := t }, [], some err)
      | none =>
        Device.queryRead { conn := some (c.Write (TrimSpace cmd ++ ['\n'])).1, timeout := t } now := by
  simp only [Device.Query, h, ne_eq, not_false_eq_true, if_true, Device.Command_eq, Option.elim]
  cases (c.Write (TrimSpace cmd ++ ['\n'])).2.2 <;> rfl


theorem Conn.stream_congr {c1 c2 : Conn} (h : c1.inbound = c2.inbound) :
    c1.stream = c2.stream := by
  unfold Conn.stream
  rw [h]

theorem Device.queryRead_log (c : Conn) (t : Int) (now : Int) :
    ∃ ns : List Nat,
      resultLog (Device.queryRead { conn := some c, timeout := t } now) =
        some (c.log ++ Call.setReadDeadline (readDeadline t now) :: ns.map Call.read) := by
  obtain ⟨b, s, e, data, heq, hR, _⟩ := Device.queryRead_spec c t now
  obtain ⟨ns, hns⟩ := hR.log
  refine ⟨ns, ?_⟩
  rw [heq]
  simp [resultLog, Device.log, hns, (Conn.SetReadDeadline_frame c _).1]

theorem Device.queryRead_line (c : Conn) (t : Int) (now : Int) (d1 : Device) (s : Bytes)
    (h : Device.queryRead { conn := some c, timeout := t } now = Except.ok (d1, s, none)) :
    ∃ pre rest : Bytes, s = pre ++ ['\n'] ∧ '\n' ∉ pre ∧ c.stream = s ++ rest := by
  obtain ⟨b, s1, e, data, heq, hR, hd, h3, _⟩ := Device.queryRead_spec c t now
  rw [heq] at h
  simp only [Except.ok.injEq, Prod.mk.injEq] at h
  obtain ⟨_, rfl, rfl⟩ := h
  obtain ⟨pre, p1, p2⟩ := h3 rfl
  refine ⟨pre, b.buf ++ b.rd.stream, p1, p2, ?_⟩
  rw [← Conn.stream_congr (Conn.SetReadDeadline_frame c (readDeadline t now)).2.1, hR.stream, hd,
    List.append_assoc]


/-! ## A closed connection -/

theorem fill_closed (b : Reader) (hc : b.rd.closed = true) :
    b.fill = { rd := { b.rd with log := b.rd.log ++ [Call.read (defaultBufSize - b.buf.length)] },
               buf := b.buf, err := some GoError.netClosed } := by
  simp [Reader.fill, maxConsecutiveEmptyReads, fillLoop, Conn.Read_closed _ _ hc]

theorem ReadString_closed (c : Conn) (hc : c.closed = true) :
    (NewReader c).ReadString '\n' =
      Except.ok ({ rd := { c with log := c.log ++ [Call.read defaultBufSize] }, buf := [],
                   err := none }, [], some GoError.netClosed) := by
  have hs : (NewReader c).ReadSlice '\n' =
      Except.ok ({ rd := { c with log := c.log ++ [Call.read defaultBufSize] }, buf := [],
                   err := none }, [], some GoError.netClosed) := by
    have hf := fill_closed (NewReader c) hc
    simp only [NewReader, List.length_nil, Nat.sub_zero] at hf
    simp only [Reader.ReadSlice, NewReader]
    rw [readSliceLoop]
    simp only [List.drop_nil, IndexByte, List.length_nil]
    have h0 : ¬ (0 ≥ defaultBufSize) := by decide
    simp only [h0, if_false, hf]
    have hfu : defaultBufSize = 4095 + 1 := rfl
    rw [hfu, readSliceLoop]
    simp [IndexByte]
  unfold Reader.ReadString Reader.collectFragments
  have hw : (NewReader c).rd.weight + (NewReader c).buf.length + 2 =
      ((NewReader c).rd.weight + 1) + 1 := by simp [NewReader]
  rw [hw, collectLoop, hs]
  simp

theorem Device.queryRead_closed (c : Conn) (t : Int) (now : Int) (hc : c.closed = true) :
    ∃ c1 : Conn, c1.closed = true ∧
      Device.queryRead { conn := some c, timeout := t } now =
        Except.ok ({ conn := some c1, timeout := t }, [], some GoError.netClosed) := by
  have h1 : (c.SetReadDeadline (readDeadline t now)).1.closed = true := by
    rw [(Conn.SetReadDeadline_frame c _).2.2.1, hc]
  refine ⟨{ (c.SetReadDeadline (readDeadline t now)).1 with
      log := (c.SetReadDeadline (readDeadline t now)).1.log ++ [Call.read defaultBufSize] }, h1, ?_⟩
  simp only [Device.queryRead, ReadString_closed _ h1]

theorem Conn.Close_closed (c : Conn) : c.Close.1.closed = true := by
  unfold Conn.Close
  cases hc : c.closed <;> simp [hc]

theorem Device.Close_eq (c : Conn) (t : Int) :
    Device.Close { conn := some c, timeout := t } =
      Except.ok ({ conn := some c.Close.1, timeout := t }, c.Close.2) := by
  rfl

theorem Device.step_closed (sprintf : Bytes → List Arg → Bytes) (d : Device) (op : Op)
    (hd : d.isClosed = true) :
    ∃ (d1 : Device) (err : Option GoError), d.step sprintf op = Except.ok (d1, err) ∧
      d1.isClosed = true ∧ (op.isTransfer = true → err = some GoError.netClosed) := by
  obtain ⟨conn, t⟩ := d
  cases conn with
  | none => simp [Device.isClosed] at hd
  | some c =>
    have hc : c.closed = true := by simpa [Device.isClosed] using hd
    have hwr : ∀ p : Bytes, (c.Write p).1.closed = true ∧ (c.Write p).2.2 = some GoError.netClosed :=
      fun p => by simp [Conn.Write_closed c p hc, hc]
    cases op with
    | setTimeout ms =>
      exact ⟨{ conn := some c, timeout := ms }, none, rfl, hd, by simp [Op.isTransfer]⟩
    | close =>
      exact ⟨{ conn := some c.Close.1, timeout := t }, c.Close.2, rfl,
        by simpa [Device.isClosed] using Conn.Close_closed c, by simp [Op.isTransfer]⟩
    | write p =>
      exact ⟨{ conn := some (c.Write p).1, timeout := t }, (c.Write p).2.2, rfl,
        by simpa [Device.isClosed] using (hwr p).1, fun _ => (hwr p).2⟩
    | writeString s =>
      exact ⟨{ conn := some (c.Write s).1, timeout := t }, (c.Write s).2.2, rfl,
        by simpa [Device.isClosed] using (hwr s).1, fun _ => (hwr s).2⟩
    | command format a =>
      refine ⟨_, _, Device.Command_eq sprintf c t format a, ?_, fun _ => (hwr _).2⟩
      simpa [Device.isClosed] using (hwr _).1
    | read now n =>
      have h1 : (c.SetReadDeadline (readDeadline t now)).1.closed = true := by
        rw [(Conn.SetReadDeadline_frame c _).2.2.1, hc]
      refine ⟨{ conn := some (((c.SetReadDeadline (readDeadline t now)).1.Read n).1),
                timeout := t }, ((c.SetReadDeadline (readDeadline t now)).1.Read n).2.2, rfl, ?_, ?_⟩
      · simp [Device.isClosed, Conn.Read_closed _ n h1, h1]
      · intro _
        simp [Conn.Read_closed _ n h1]
    | query now cmd =>
      by_cases hcmd : cmd = []
      · subst hcmd
        obtain ⟨c1, k1, k2⟩ := Device.queryRead_closed c t now hc
        refine ⟨{ conn := some c1, timeout := t }, some GoError.netClosed, ?_, ?_, fun _ => rfl⟩
        · simp only [Device.step, Device.Query_empty, k2, Except.map]
        · simpa [Device.isClosed] using k1
      · refine ⟨{ conn := some (c.Write (TrimSpace cmd ++ ['\n'])).1, timeout := t },
          some GoError.netClosed, ?_, ?_, fun _ => rfl⟩
        · simp only [Device.step, Device.Query_nonempty sprintf c t now cmd hcmd, (hwr _).2,
            Except.map]
        · simpa [Device.isClosed] using (hwr _).1

theorem Device.run_closed (sprintf : Bytes → List Arg → Bytes) (ops : List Op) (d : Device)
    (hd : d.isClosed = true) :
    ∃ (d2 : Device) (rs : List (Op × Option GoError)),
      Device.run sprintf d ops = Except.ok (d2, rs) ∧ d2.isClosed = true ∧
      rs.map Prod.fst = ops ∧
      ∀ r ∈ rs, r.1.isTransfer = true → r.2 = some GoError.netClosed := by
  induction ops generalizing d with
  | nil => exact ⟨d, [], rfl, hd, rfl, by simp⟩
  | cons op ops ih =>
    obtain ⟨d1, err, h1, h2, h3⟩ := Device.step_closed sprintf d op hd
    obtain ⟨d2, rs, g1, g2, g3, g4⟩ := ih d1 h2
    refine ⟨d2, (op, err) :: rs, by simp only [Device.run, h1, g1], g2, by simp [g3], ?_⟩
    intro r hr
    rcases List.mem_cons.mp hr with rfl | hr
    · exact h3
    · exact g4 r hr


/-! ## A line that is one delivery -/

theorem IndexByte_of_not_mem {l : Bytes} {c : Char} (h : c ∉ l) : IndexByte l c = none := by
  induction l with
  | nil => rfl
  | cons x xs ih =>
    simp only [List.mem_cons, not_or] at h
    have hx : ¬ x = c := fun hxc => h.1 hxc.symm
    simp [IndexByte, hx, ih h.2]

theorem IndexByte_append_delim {a : Bytes} {c : Char} (rest : Bytes) (h : c ∉ a) :
    IndexByte (a ++ c :: rest) c = some a.length := by
  induction a with
  | nil => simp [IndexByte]
  | cons x xs ih =>
    simp only [List.mem_cons, not_or] at h
    have hx : ¬ x = c := fun hxc => h.1 hxc.symm
    simp [IndexByte, hx, ih h.2]

theorem fillLoop_succ (i : Nat) (b : Reader) (c1 : Conn) (data : Bytes) (e : Option GoError)
    (hr : b.rd.Read (defaultBufSize - b.buf.length) = (c1, data, e))
    (h : e ≠ none ∨ 0 < data.length) :
    fillLoop (i + 1) b = { rd := c1, buf := b.buf ++ data, err := e.orElse (fun _ => b.err) } := by
  rw [fillLoop, hr]
  cases e with
  | some e1 => rfl
  | none =>
    have h0 : 0 < data.length := h.resolve_left (by simp)
    simp [h0]

theorem fill_whole (c : Conn) (data : Bytes) (e : Option GoError)
    (rest : List (Bytes × Option GoError)) (hc : c.closed = false)
    (hin : c.inbound = (data, e) :: rest) (h0 : 0 < data.length)
    (hl : data.length ≤ defaultBufSize) :
    Reader.fill { rd := c, buf := [], err := none } =
      { rd := { c with log := c.log ++ [Call.read defaultBufSize], inbound := rest },
        buf := data, err := e } := by
  have hn : defaultBufSize ≠ 0 := by decide
  have hr := Conn.Read_whole c defaultBufSize data e rest hc hn hin hl
  have hm : maxConsecutiveEmptyReads = 99 + 1 := rfl
  rw [Reader.fill, hm, fillLoop_succ 99 _ _ data e hr (Or.inr h0)]
  cases e <;> rfl

theorem fill_part (c : Conn) (data : Bytes) (e : Option GoError)
    (rest : List (Bytes × Option GoError)) (hc : c.closed = false)
    (hin : c.inbound = (data, e) :: rest) (hl : defaultBufSize < data.length) :
    Reader.fill { rd := c, buf := [], err := none } =
      { rd := { c with log := c.log ++ [Call.read defaultBufSize],
                       inbound := (data.drop defaultBufSize, e) :: rest },
        buf := data.take defaultBufSize, err := none } := by
  have hn : defaultBufSize ≠ 0 := by decide
  have hr := Conn.Read_part c defaultBufSize data e rest hc hn hin hl
  have h0 : 0 < (data.take defaultBufSize).length := by
    rw [List.length_take]
    have : defaultBufSize = 4096 := rfl
    omega
  have hm : maxConsecutiveEmptyReads = 99 + 1 := rfl
  rw [Reader.fill, hm, fillLoop_succ 99 _ _ _ none hr (Or.inr h0)]
  rfl

theorem ReadSlice_whole (c : Conn) (a : Bytes) (e : Option GoError)
    (rest : List (Bytes × Option GoError)) (hc : c.closed = false)
    (hin : c.inbound = (a ++ ['\n'], e) :: rest) (ha : '\n' ∉ a)
    (hl : a.length + 1 ≤ defaultBufSize) :
    Reader.ReadSlice { rd := c, buf := [], err := none } '\n' =
      Except.ok ({ rd := { c with log := c.log ++ [Call.read defaultBufSize], inbound := rest },
                   buf := [], err := e }, a ++ ['\n'], none) := by
  have hf := fill_whole c (a ++ ['\n']) e rest hc hin (by simp) (by simpa using hl)
  have h0 : ¬ (0 ≥ defaultBufSize) := by decide
  have hfu : defaultBufSize + 1 = (4095 + 1) + 1 := rfl
  rw [Reader.ReadSlice, hfu, readSliceLoop]
  simp only [List.drop_nil, IndexByte, List.length_nil, h0, if_false, hf]
  rw [readSliceLoop]
  simp only [List.drop_zero, IndexByte_append_delim [] ha, Nat.zero_add]
  have h1 : (a ++ ['\n']).drop (a.length + 1) = [] := by simp
  have h2 : (a ++ ['\n']).take (a.length + 1) = a ++ ['\n'] := by simp
  rw [h1, h2]

theorem ReadSlice_part (c : Conn) (a : Bytes) (e : Option GoError)
    (rest : List (Bytes × Option GoError)) (hc : c.closed = false)
    (hin : c.inbound = (a ++ ['\n'], e) :: rest) (ha : '\n' ∉ a)
    (hl : defaultBufSize ≤ a.length) :
    Reader.ReadSlice { rd := c, buf := [], err := none } '\n' =
      Except.ok ({ rd := { c with log := c.log ++ [Call.read defaultBufSize],
                                  inbound := (a.drop defaultBufSize ++ ['\n'], e) :: rest },
                   buf := [], err := none }, a.take defaultBufSize,
        some GoError.errBufferFull) := by
  have hf := fill_part c (a ++ ['\n']) e rest hc hin (by simp; omega)
  rw [List.take_append_of_le_length hl, List.drop_append_of_le_length hl] at hf
  have h0 : ¬ (0 ≥ defaultBufSize) := by decide
  have hfu : defaultBufSize + 1 = (4095 + 1) + 1 := rfl
  rw [Reader.ReadSlice, hfu, readSliceLoop]
  simp only [List.drop_nil, IndexByte, List.length_nil, h0, if_false, hf]
  rw [readSliceLoop]
  have hnot : '\n' ∉ a.take defaultBufSize := fun h => ha (List.mem_of_mem_take h)
  have hlen : (a.take defaultBufSize).length ≥ defaultBufSize := by
    rw [List.length_take]
    omega
  simp only [List.drop_zero, IndexByte_of_not_mem hnot, hlen, if_true]

theorem collectLoop_delivery (fuel : Nat) (c : Conn) (a : Bytes) (e : Option GoError)
    (rest : List (Bytes × Option GoError)) (full : List Bytes) (hc : c.closed = false)
    (hin : c.inbound = (a ++ ['\n'], e) :: rest) (ha : '\n' ∉ a)
    (hfuel : a.length / 4096 + 1 ≤ fuel) :
    ∃ (b1 : Reader) (full1 : List Bytes) (frag : Bytes),
      collectLoop '\n' fuel { rd := c, buf := [], err := none } full =
        Except.ok (b1, full1, frag, none) ∧
      full1.flatten ++ frag = full.flatten ++ a ++ ['\n'] ∧ b1.rd.inbound = rest := by
  induction fuel generalizing c a full with
  | zero => omega
  | succ fuel ih =>
    have hsz : defaultBufSize = 4096 := rfl
    by_cases hl : a.length + 1 ≤ defaultBufSize
    · refine ⟨{ rd := { c with log := c.log ++ [Call.read defaultBufSize], inbound := rest },
                buf := [], err := e }, full, a ++ ['\n'], ?_, by simp, rfl⟩
      rw [collectLoop, ReadSlice_whole c a e rest hc hin ha hl]
    · have hl2 : defaultBufSize ≤ a.length := by omega
      have hnot : '\n' ∉ a.drop defaultBufSize := fun h => ha (List.mem_of_mem_drop h)
      obtain ⟨b1, full1, frag, g1, g2, g3⟩ :=
        ih { c with log := c.log ++ [Call.read defaultBufSize],
                    inbound := (a.drop defaultBufSize ++ ['\n'], e) :: rest }
          (a.drop defaultBufSize) (full ++ [a.take defaultBufSize]) hc rfl hnot
          (by rw [List.length_drop]; omega)
      refine ⟨b1, full1, frag, ?_, ?_, g3⟩
      · rw [collectLoop, ReadSlice_part c a e rest hc hin ha hl2]
        simpa using g1
      · rw [g2]
        simp only [List.flatten_append, List.flatten_cons, List.flatten_nil, List.append_nil,
          List.append_assoc]
        rw [← List.append_assoc (a.take defaultBufSize), List.take_append_drop]

theorem ReadString_delivery (c : Conn) (a : Bytes) (e : Option GoError)
    (rest : List (Bytes × Option GoError)) (hc : c.closed = false)
    (hin : c.inbound = (a ++ ['\n'], e) :: rest) (ha : '\n' ∉ a) :
    ∃ b1 : Reader, (NewReader c).ReadString '\n' = Except.ok (b1, a ++ ['\n'], none) ∧
      b1.rd.inbound = rest ∧ b1.rd.closed = false := by
  have hw : a.length / 4096 + 1 ≤ c.weight + 0 + 2 := by
    have h1 : a.length / 4096 ≤ a.length := Nat.div_le_self _ _
    have h2 : a.length ≤ c.weight := by
      simp only [Conn.weight, hin, List.map_cons, List.sum_cons, List.length_append,
        List.length_singleton]
      omega
    omega
  obtain ⟨b1, full1, frag, g1, g2, g3⟩ := collectLoop_delivery _ c a e rest [] hc hin ha hw
  have hrs : (NewReader c).ReadString '\n' = Except.ok (b1, a ++ ['\n'], none) := by
    simp only [Reader.ReadString, Reader.collectFragments, NewReader, List.length_nil, g1, g2,
      List.flatten_nil, List.nil_append]
  obtain ⟨data, r1, _⟩ := ReadString_spec _ b1 '\n' _ none hrs
  exact ⟨b1, hrs, g3, by rw [r1.closed]; exact hc⟩

theorem Device.Query_delivery (sprintf : Bytes → List Arg → Bytes) (c : Conn) (t : Int)
    (now : Int) (a : Bytes) (e : Option GoError) (rest : List (Bytes × Option GoError))
    (hc : c.closed = false) (hin : c.inbound = (a ++ ['\n'], e) :: rest) (ha : '\n' ∉ a) :
    ∃ c1 : Conn, Device.Query sprintf { conn := some c, timeout := t } now [] =
        Except.ok ({ conn := some c1, timeout := t }, a ++ ['\n'], none) ∧
      c1.inbound = rest ∧ c1.closed = false := by
  have f := Conn.SetReadDeadline_frame c (readDeadline t now)
  obtain ⟨b1, h1, h2, h3⟩ := ReadString_delivery (c.SetReadDeadline (readDeadline t now)).1 a e
    rest (by rw [f.2.2.1]; exact hc) (by rw [f.2.1]; exact hin) ha
  refine ⟨b1.rd, ?_, h2, h3⟩
  simp only [Device.Query_empty, Device.queryRead, h1]


/-! ## Resource strings -/

theorem splitSegments_ne_nil (s : Bytes) : splitSegments s ≠ [] := by
  match s with
  | [] => simp [splitSegments]
  | [c] => simp [splitSegments]
  | c :: e :: rest =>
    unfold splitSegments
    split
    · simp
    · split <;> simp

theorem splitSegments_no_colon (s : Bytes) (h : ':' ∉ s) : splitSegments s = [s] := by
  match s with
  | [] => rfl
  | [c] => rfl
  | c :: e :: rest =>
    have hc : c ≠ ':' := fun hc => h (by simp [hc])
    have ht : ':' ∉ e :: rest := fun hm => h (List.mem_cons_of_mem _ hm)
    have ih := splitSegments_no_colon (e :: rest) ht
    unfold splitSegments
    simp [hc, ih]

theorem splitSegments_segment (h rest : Bytes) (hc : ':' ∉ h) :
    splitSegments (h ++ ':' :: ':' :: rest) = h :: splitSegments rest := by
  induction h with
  | nil =>
    simp only [List.nil_append]
    rw [splitSegments]
    simp
  | cons x xs ih =>
    have hx : x ≠ ':' := fun hx => hc (by simp [hx])
    have hxs : ':' ∉ xs := fun hm => hc (List.mem_cons_of_mem _ hm)
    have ih := ih hxs
    cases xs with
    | nil =>
      simp only [List.nil_append] at ih
      show splitSegments (x :: ':' :: ':' :: rest) = _
      rw [splitSegments]
      simp [hx, ih]
    | cons y ys =>
      show splitSegments (x :: y :: (ys ++ ':' :: ':' :: rest)) = _
      rw [splitSegments]
      have ih2 : splitSegments (y :: (ys ++ ':' :: ':' :: rest)) =
          (y :: ys) :: splitSegments rest := ih
      simp [hx, ih2]

theorem parseDecimal_no_colon (s : Bytes) (p : Nat) (h : parseDecimal s = some p) : ':' ∉ s := by
  unfold parseDecimal at h
  split at h
  · rename_i hs
    intro hm
    have := List.all_eq_true.mp hs.2 ':' hm
    simp [Char.isDigit] at this
  · simp at h

theorem digitChar_value (k : Nat) (hk : k < 10) :
    (Nat.digitChar k).toNat - '0'.toNat = k ∧ (Nat.digitChar k).isDigit = true := by
  interval_cases k <;> decide

theorem toDigitsCore_value (fuel n : Nat) (ds : Bytes) (h : n < fuel) :
    (Nat.toDigitsCore 10 fuel n ds).foldl (fun m c => 10 * m + (c.toNat - '0'.toNat)) 0 =
      ds.foldl (fun m c => 10 * m + (c.toNat - '0'.toNat)) n ∧
    ((∀ c ∈ ds, c.isDigit = true) → ∀ c ∈ Nat.toDigitsCore 10 fuel n ds, c.isDigit = true) ∧
    Nat.toDigitsCore 10 fuel n ds ≠ [] := by
  induction fuel generalizing n ds with
  | zero => omega
  | succ fuel ih =>
    have hd := digitChar_value (n % 10) (Nat.mod_lt _ (by decide))
    unfold Nat.toDigitsCore
    by_cases h0 : n / 10 = 0
    · simp only [h0, if_true]
      refine ⟨?_, ?_, by simp⟩
      · simp only [List.foldl_cons, Nat.mul_zero, Nat.zero_add, hd.1]
        have : n % 10 = n := by omega
        rw [this]
      · intro hds c hc
        rcases List.mem_cons.mp hc with rfl | hc
        · exact hd.2
        · exact hds c hc
    · simp only [h0, if_false]
      obtain ⟨i1, i2, i3⟩ := ih (n / 10) (Nat.digitChar (n % 10) :: ds) (by omega)
      refine ⟨?_, ?_, i3⟩
      · rw [i1]
        simp only [List.foldl_cons, hd.1]
        have : 10 * (n / 10) + n % 10 = n := by omega
        rw [this]
      · intro hds
        apply i2
        intro c hc
        rcases List.mem_cons.mp hc with rfl | hc
        · exact hd.2
        · exact hds c hc

theorem parseDecimal_repr (n : Nat) : parseDecimal (Nat.repr n).toList = some n := by
  obtain ⟨h1, h2, h3⟩ := toDigitsCore_value (n + 1) n [] (by omega)
  have hall : (Nat.toDigits 10 n).all Char.isDigit = true :=
    List.all_eq_true.mpr (h2 (by simp))
  have hne : Nat.toDigits 10 n ≠ [] := h3
  have hv : (Nat.toDigits 10 n).foldl (fun m c => 10 * m + (c.toNat - '0'.toNat)) 0 = n := by
    simpa [Nat.toDigits] using h1
  have hl : (Nat.repr n).toList = Nat.toDigits 10 n := rfl
  rw [hl]
  simp only [parseDecimal, ne_eq, hne, not_false_eq_true, hall, and_self, if_true, hv]


theorem Device.step_timeout (sprintf : Bytes → List Arg → Bytes) (d d1 : Device) (op : Op)
    (err : Option GoError) (h : d.step sprintf op = Except.ok (d1, err))
    (hop : ∀ ms : Int, op ≠ Op.setTimeout ms) : d1.timeout = d.timeout := by
  obtain ⟨conn, t⟩ := d
  cases conn with
  | none =>
    cases op with
    | setTimeout ms => exact absurd rfl (hop ms)
    | query now cmd =>
      by_cases hcmd : cmd = []
      · simp [Device.step, Device.Query, Device.queryRead, hcmd, Except.map] at h
      · simp [Device.step, Device.Query, Device.Command, Device.WriteString, Device.Write, hcmd,
          Except.map] at h
    | _ =>
      simp [Device.step, Device.Write, Device.WriteString, Device.Command, Device.Read,
        Device.Close, Except.map] at h
  | some c =>
    cases op with
    | setTimeout ms => exact absurd rfl (hop ms)
    | write p =>
      simp only [Device.step, Device.Write_eq, Except.map, Except.ok.injEq, Prod.mk.injEq] at h
      rw [← h.1]
    | writeString s =>
      simp only [Device.step, Device.WriteString, Device.Write_eq, Except.map, Except.ok.injEq,
        Prod.mk.injEq] at h
      rw [← h.1]
    | command format a =>
      simp only [Device.step, Device.Command_eq, Except.ok.injEq, Prod.mk.injEq] at h
      rw [← h.1]
    | read now n =>
      simp only [Device.step, Device.Read_eq, Except.map, Except.ok.injEq, Prod.mk.injEq] at h
      rw [← h.1]
    | close =>
      simp only [Device.step, Device.Close, Except.ok.injEq, Prod.mk.injEq] at h
      rw [← h.1]
    | query now cmd =>
      simp only [Device.step] at h
      by_cases hcmd : cmd = []
      · subst hcmd
        obtain ⟨b, s, e, data, heq, _⟩ := Device.queryRead_spec c t now
        rw [Device.Query_empty, heq] at h
        simp only [Except.map, Except.ok.injEq, Prod.mk.injEq] at h
        rw [← h.1]
      · rw [Device.Query_nonempty sprintf c t now cmd hcmd] at h
        cases hw : (c.Write (TrimSpace cmd ++ ['\n'])).2.2 with
        | some e1 =>
          simp only [hw, Except.map, Except.ok.injEq, Prod.mk.injEq] at h
          rw [← h.1]
        | none =>
          obtain ⟨b, s, e, data, heq, _⟩ :=
            Device.queryRead_spec (c.Write (TrimSpace cmd ++ ['\n'])).1 t now
          simp only [hw, heq, Except.map, Except.ok.injEq, Prod.mk.injEq] at h
          rw [← h.1]

/-- Within the range in which the product does not overflow, the deadline is
`now` plus the timeout in milliseconds; a timeout that is not positive clears
the deadline. -/
theorem readDeadline_in_range (timeout : Int) (now : Int) :
    (0 < timeout → timeout ≤ 9223372036854 → readDeadline timeout now = now + timeout * 1000000) ∧
    (timeout ≤ 0 → readDeadline timeout now = zeroTime) := by
  constructor
  · intro h1 h2
    have : wrapInt64 (Millisecond * timeout) = timeout * 1000000 := by
      unfold wrapInt64 Millisecond
      omega
    simp [readDeadline, h1, this]
  · intro h
    have : ¬ timeout > 0 := by omega
    simp [readDeadline, this]

/-- `Read` and `Query` pass the same instant to `SetReadDeadline`. -/
theorem Read_Query_same_deadline (sprintf : Bytes → List Arg → Bytes) (c : Conn) (t : Int)
    (now : Int) (n : Nat) :
    resultLog (Device.Read { conn := some c, timeout := t } now n) =
      some (c.log ++ [Call.setReadDeadline (readDeadline t now), Call.read n]) ∧
    ∃ ns : List Nat,
      resultLog (Device.Query sprintf { conn := some c, timeout := t } now []) =
        some (c.log ++ Call.setReadDeadline (readDeadline t now) :: ns.map Call.read) := by
  refine ⟨?_, ?_⟩
  · rw [Device.Read_eq]
    simp [resultLog, Device.log, (Conn.Read_spec _ _).2.1, (Conn.SetReadDeadline_frame _ _).1]
  · rw [Device.Query_empty]
    exact Device.queryRead_log c t now

/-! ## The deadline and the calls of a query -/

theorem Conn.SetReadDeadline_deadline (c : Conn) (t : Int) :
    (c.SetReadDeadline t).1.deadline = if c.closed = true then c.deadline else t := by
  unfold Conn.SetReadDeadline
  cases hc : c.closed <;> simp [hc]

theorem Device.queryRead_deadline (c : Conn) (t : Int) (now : Int) :
    resultDeadline (Device.queryRead { conn := some c, timeout := t } now) =
      some (if c.closed = true then c.deadline else readDeadline t now) := by
  obtain ⟨b, s, e, data, heq, hR, _⟩ := Device.queryRead_spec c t now
  rw [heq]
  simp only [resultDeadline, Option.map_some', hR.deadline, Conn.SetReadDeadline_deadline]

theorem Device.Read_deadline (c : Conn) (t : Int) (now : Int) (n : Nat) :
    resultDeadline (Device.Read { conn := some c, timeout := t } now n) =
      some (if c.closed = true then c.deadline else readDeadline t now) := by
  rw [Device.Read_eq]
  simp only [resultDeadline, Option.map_some', (Conn.Read_spec _ n).1.deadline,
    Conn.SetReadDeadline_deadline]

theorem Device.Query_log (sprintf : Bytes → List Arg → Bytes) (c : Conn) (t : Int) (now : Int)
    (cmd : Bytes) :
    ∃ ns : List Nat,
      resultLog (Device.Query sprintf { conn := some c, timeout := t } now cmd) =
        some (c.log ++
          (if cmd = [] then [] else [Call.write (TrimSpace cmd ++ ['\n'])]) ++
          (if cmd ≠ [] ∧ (c.Write (TrimSpace cmd ++ ['\n'])).2.2 ≠ none then []
           else Call.setReadDeadline (readDeadline t now) :: ns.map Call.read)) := by
  by_cases hcmd : cmd = []
  · subst hcmd
    obtain ⟨ns, hns⟩ := Device.queryRead_log c t now
    refine ⟨ns, ?_⟩
    rw [Device.Query_empty, hns]
    simp
  · rw [Device.Query_nonempty sprintf c t now cmd hcmd]
    cases hw : (c.Write (TrimSpace cmd ++ ['\n'])).2.2 with
    | some err =>
      refine ⟨[], ?_⟩
      simp [resultLog, Device.log, (Conn.Write_frame c _).1, hcmd]
    | none =>
      obtain ⟨ns, hns⟩ := Device.queryRead_log (c.Write (TrimSpace cmd ++ ['\n'])).1 t now
      refine ⟨ns, ?_⟩
      simp only [hns, (Conn.Write_frame c _).1, hcmd, if_false, ne_eq, not_false_eq_true,
        not_true_eq_false, and_false, List.append_assoc, List.singleton_append]

theorem Device.Query_deadline (sprintf : Bytes → List Arg → Bytes) (c : Conn) (t : Int)
    (now : Int) (cmd : Bytes) :
    resultDeadline (Device.Query sprintf { conn := some c, timeout := t } now cmd) =
      some (if c.closed = true ∨ (cmd ≠ [] ∧ (c.Write (TrimSpace cmd ++ ['\n'])).2.2 ≠ none)
        then c.deadline else readDeadline t now) := by
  by_cases hcmd : cmd = []
  · subst hcmd
    rw [Device.Query_empty, Device.queryRead_deadline]
    simp
  · rw [Device.Query_nonempty sprintf c t now cmd hcmd]
    have hf := Conn.Write_frame c (TrimSpace cmd ++ ['\n'])
    cases hw : (c.Write (TrimSpace cmd ++ ['\n'])).2.2 with
    | some err =>
      simp [resultDeadline, hf.2.2.1, hcmd]
    | none =>
      have hopen : c.closed = false := by
        cases hc : c.closed with
        | false => rfl
        | true =>
          rw [Conn.Write_closed c _ hc] at hw
          simp at hw
      simp only [Device.queryRead_deadline, hf.2.2.1, hf.2.2.2.1, hopen, hcmd]
      simp

/-! ## Bytes delivered behind the first newline -/

theorem ReadSlice_whole_rest (c : Conn) (a b : Bytes) (e : Option GoError)
    (rest : List (Bytes × Option GoError)) (hc : c.closed = false)
    (hin : c.inbound = (a ++ '\n' :: b, e) :: rest) (ha : '\n' ∉ a)
    (hl : a.length + 1 + b.length ≤ defaultBufSize) :
    Reader.ReadSlice { rd := c, buf := [], err := none } '\n' =
      Except.ok ({ rd := { c with log := c.log ++ [Call.read defaultBufSize], inbound := rest },
                   buf := b, err := e }, a ++ ['\n'], none) := by
  have hlen : (a ++ '\n' :: b).length = a.length + 1 + b.length := by
    simp only [List.length_append, List.length_cons]
    omega
  have hf := fill_whole c (a ++ '\n' :: b) e rest hc hin (by omega) (by omega)
  have h0 : ¬ (0 ≥ defaultBufSize) := by decide
  have hfu : defaultBufSize + 1 = (4095 + 1) + 1 := rfl
  rw [Reader.ReadSlice, hfu, readSliceLoop]
  simp only [List.drop_nil, IndexByte, List.length_nil, h0, if_false, hf]
  rw [readSliceLoop]
  simp only [List.drop_zero, IndexByte_append_delim b ha, Nat.zero_add]
  have h1 : (a ++ '\n' :: b).drop (a.length + 1) = b := by
    have : a ++ '\n' :: b = (a ++ ['\n']) ++ b := by simp
    rw [this, List.drop_left' (by simp)]
  have h2 : (a ++ '\n' :: b).take (a.length + 1) = a ++ ['\n'] := by
    have : a ++ '\n' :: b = (a ++ ['\n']) ++ b := by simp
    rw [this, List.take_left' (by simp)]
  rw [h1, h2]

/-- The defect behind C8 in general: when the delivery that carries the first
newline carries further bytes `b` behind it (and fits the buffer), `Query("")`
returns the first line and the connection is left with the later deliveries
only, so `b` is neither returned nor available to any later call. -/
theorem Query_loses_bytes_behind_newline (sprintf : Bytes → List Arg → Bytes) (c : Conn)
    (t : Int) (now : Int) (a b : Bytes) (e : Option GoError)
    (rest : List (Bytes × Option GoError)) (hc : c.closed = false)
    (hin : c.inbound = (a ++ '\n' :: b, e) :: rest) (ha : '\n' ∉ a)
    (hl : a.length + 1 + b.length ≤ defaultBufSize) :
    ∃ c1 : Conn, Device.Query sprintf { conn := some c, timeout := t } now [] =
        Except.ok ({ conn := some c1, timeout := t }, a ++ ['\n'], none) ∧
      c1.inbound = rest := by
  have f := Conn.SetReadDeadline_frame c (readDeadline t now)
  have hc1 : (c.SetReadDeadline (readDeadline t now)).1.closed = false := by
    rw [f.2.2.1]; exact hc
  have hin1 : (c.SetReadDeadline (readDeadline t now)).1.inbound = (a ++ '\n' :: b, e) :: rest := by
    rw [f.2.1]; exact hin
  have hs := ReadSlice_whole_rest _ a b e rest hc1 hin1 ha hl
  refine ⟨{ (c.SetReadDeadline (readDeadline t now)).1 with
      log := (c.SetReadDeadline (readDeadline t now)).1.log ++ [Call.read defaultBufSize],
      inbound := rest }, ?_, rfl⟩
  have hw : (NewReader (c.SetReadDeadline (readDeadline t now)).1).rd.weight +
      (NewReader (c.SetReadDeadline (readDeadline t now)).1).buf.length + 2 =
      ((c.SetReadDeadline (readDeadline t now)).1.weight + 1) + 1 := by simp [NewReader]
  simp only [Device.Query_empty, Device.queryRead, Reader.ReadString, Reader.collectFragments]
  rw [hw, collectLoop]
  simp only [NewReader, hs, List.flatten_nil, List.nil_append]

/-- Instance: the lines `A` and `B` delivered together; `B` is lost. -/
theorem Query_loses_bytes_behind_newline_witness :
    lineConn.closed = false ∧
    lineConn.inbound = ("A".toList ++ '\n' :: "B\n".toList, none) ::
      [([], some GoError.timeout)] ∧
    ∃ c1 : Conn, Device.Query Sprintf { conn := some lineConn, timeout := 100 } 5 [] =
        Except.ok ({ conn := some c1, timeout := 100 }, "A".toList ++ ['\n'], none) ∧
      c1.inbound = [([], some GoError.timeout)] :=
  ⟨rfl, rfl, Query_loses_bytes_behind_newline Sprintf lineConn 100 5 "A".toList "B\n".toList none
    [([], some GoError.timeout)] rfl rfl (by decide) (by decide)⟩

/-- When each of two newline-terminated lines is a delivery of its own, two
successive `Query("")` calls return the first line and then the second, in
order, and the deliveries behind them stay available. -/
theorem Query_twice_separate_deliveries (sprintf : Bytes → List Arg → Bytes) (c : Conn)
    (t : Int) (now1 now2 : Int) (a b : Bytes) (e1 e2 : Option GoError)
    (rest : List (Bytes × Option GoError)) (hc : c.closed = false)
    (hin : c.inbound = (a ++ ['\n'], e1) :: (b ++ ['\n'], e2) :: rest)
    (ha : '\n' ∉ a) (hb : '\n' ∉ b) :
    ∃ c1 c2 : Conn,
      Device.Query sprintf { conn := some c, timeout := t } now1 [] =
        Except.ok ({ conn := some c1, timeout := t }, a ++ ['\n'], none) ∧
      c1.inbound = (b ++ ['\n'], e2) :: rest ∧
      Device.Query sprintf { conn := some c1, timeout := t } now2 [] =
        Except.ok ({ conn := some c2, timeout := t }, b ++ ['\n'], none) ∧
      c2.inbound = rest := by
  obtain ⟨c1, h1, h2, h3⟩ := Device.Query_delivery sprintf c t now1 a e1 _ hc hin ha
  obtain ⟨c2, g1, g2, _⟩ := Device.Query_delivery sprintf c1 t now2 b e2 _ h3 h2 hb
  exact ⟨c1, c2, h1, h2, g1, g2⟩

/-- Instance: the lines `A` and `B`, a delivery each. -/
theorem Query_twice_separate_deliveries_witness :
    pairConn.closed = false ∧
    pairConn.inbound = ("A".toList ++ ['\n'], none) :: ("B".toList ++ ['\n'], none) :: [] ∧
    '\n' ∉ "A".toList ∧ '\n' ∉ "B".toList ∧
    ∃ c1 c2 : Conn,
      Device.Query Sprintf { conn := some pairConn, timeout := 100 } 5 [] =
        Except.ok ({ conn := some c1, timeout := 100 }, "A".toList ++ ['\n'], none) ∧
      c1.inbound = ("B".toList ++ ['\n'], none) :: [] ∧
      Device.Query Sprintf { conn := some c1, timeout := 100 } 7 [] =
        Except.ok ({ conn := some c2, timeout := 100 }, "B".toList ++ ['\n'], none) ∧
      c2.inbound = [] :=
  ⟨rfl, rfl, by decide, by decide,
    Query_twice_separate_deliveries Sprintf pairConn 100 5 7 "A".toList "B".toList none none []
      rfl rfl (by decide) (by decide)⟩

/-! # The claims -/

/-- C1, as stated, fails when arguments are passed as an empty slice that is not
nil: no argument is supplied, yet the format goes through `Sprintf`, and
`Command("%d", []interface{}{}...)` hands `%!d(MISSING)` and a newline to the
connection's write, not the format string. -/
theorem Command_sprintf_empty_slice :
    resultLog (Device.Command Sprintf { conn := some lineConn, timeout := 0 } "%d".toList (some []))
      = some [Call.write "%!d(MISSING)\n".toList] ∧
    "%!d(MISSING)\n".toList ≠ TrimSpace "%d".toList ++ ['\n'] := by
  decide

/-- C1 (amended): `Command` hands to the connection's write exactly one byte
slice, `TrimSpace r` followed by a newline, where `r` is the format string
itself when the argument slice is nil and the `Sprintf` expansion of the format
whenever the slice is not nil, an empty one included.  The trimmed text never
ends in a newline, so the line ends in exactly one; and
`Command("%s=%d", "VOLT", 5)` hands over `VOLT=5` and a newline. -/
theorem Command_hands_line (sprintf : Bytes → List Arg → Bytes) (c : Conn) (t : Int)
    (format : Bytes) :
    resultLog (Device.Command sprintf { conn := some c, timeout := t } format none)
      = some (c.log ++ [Call.write (TrimSpace format ++ ['\n'])]) ∧
    (∀ args : List Arg,
      resultLog (Device.Command sprintf { conn := some c, timeout := t } format (some args))
        = some (c.log ++ [Call.write (TrimSpace (sprintf format args) ++ ['\n'])])) ∧
    (∀ r : Bytes, (TrimSpace r).getLast? ≠ some '\n') ∧
    resultLog (Device.Command Sprintf { conn := some c, timeout := t } "%s=%d".toList
        (some [Arg.str "VOLT".toList, Arg.int 5]))
      = some (c.log ++ [Call.write "VOLT=5\n".toList]) := by
  refine ⟨?_, ?_, TrimSpace_getLast, ?_⟩
  · rw [Device.Command_eq]
    simp [resultLog, Device.log, (Conn.Write_frame c _).1]
  · intro args
    rw [Device.Command_eq]
    simp [resultLog, Device.log, (Conn.Write_frame c _).1]
  · rw [Device.Command_eq]
    have h : TrimSpace (Sprintf "%s=%d".toList [Arg.str "VOLT".toList, Arg.int 5]) ++ ['\n']
        = "VOLT=5\n".toList := by decide
    simp only [Option.elim, h]
    simp [resultLog, Device.log, (Conn.Write_frame c _).1]

/-- C2: whenever `Query` returns without error, the string it returns is the
inbound byte stream up to and including the first newline: it is a prefix of the
stream, it ends in a newline, and no earlier byte of it is a newline. -/
theorem Query_returns_first_line (sprintf : Bytes → List Arg → Bytes) (c : Conn) (t : Int)
    (now : Int) (cmd : Bytes) (d1 : Device) (s : Bytes)
    (h : Device.Query sprintf { conn := some c, timeout := t } now cmd = Except.ok (d1, s, none)) :
    ∃ pre rest : Bytes, s = pre ++ ['\n'] ∧ '\n' ∉ pre ∧ c.stream = s ++ rest := by
  by_cases hcmd : cmd = []
  · subst hcmd
    rw [Device.Query_empty] at h
    exact Device.queryRead_line c t now d1 s h
  · rw [Device.Query_nonempty sprintf c t now cmd hcmd] at h
    cases hw : (c.Write (TrimSpace cmd ++ ['\n'])).2.2 with
    | some err => simp [hw] at h
    | none =>
      simp only [hw] at h
      obtain ⟨pre, rest, p1, p2, p3⟩ := Device.queryRead_line _ t now d1 s h
      exact ⟨pre, rest, p1, p2, by
        rw [← p3]; exact (Conn.stream_congr (Conn.Write_frame c _).2.1).symm⟩

/-- Instance of C2: a query answered by the line `A`. -/
theorem Query_returns_first_line_witness :
    (∃ d1 : Device, Device.Query Sprintf { conn := some lineConn, timeout := 100 } 5
        "*IDN?".toList = Except.ok (d1, "A\n".toList, none)) ∧
    ∃ pre rest : Bytes, "A\n".toList = pre ++ ['\n'] ∧ '\n' ∉ pre ∧
      lineConn.stream = "A\n".toList ++ rest :=
  ⟨⟨_, rfl⟩, Query_returns_first_line Sprintf lineConn 100 5 "*IDN?".toList _ "A\n".toList rfl⟩

/-- C3 at the stored timeout 9223372036855 ms: the `int64` product with
`time.Millisecond` wraps around, and `Read` and `Query` pass to
`SetReadDeadline` an instant 9223372036854551616 ns before `now`, not `now` plus
the timeout. -/
theorem Read_deadline_overflow (sprintf : Bytes → List Arg → Bytes) (c : Conn) (now : Int)
    (n : Nat) :
    resultLog (Device.Read { conn := some c, timeout := 9223372036855 } now n)
      = some (c.log ++ [Call.setReadDeadline (now - 9223372036854551616), Call.read n]) ∧
    (∃ ns : List Nat,
      resultLog (Device.Query sprintf { conn := some c, timeout := 9223372036855 } now [])
        = some (c.log ++ Call.setReadDeadline (now - 9223372036854551616) ::
            ns.map Call.read)) ∧
    now - 9223372036854551616 ≠ now + 9223372036855 * 1000000 ∧
    now - 9223372036854551616 < now := by
  have h : readDeadline 9223372036855 now = now - 9223372036854551616 := by
    have : wrapInt64 (Millisecond * 9223372036855) = -9223372036854551616 := by decide
    simp only [readDeadline, this]
    simp
    omega
  refine ⟨?_, ?_, by omega, by omega⟩
  · rw [Device.Read_eq, h]
    simp [resultLog, Device.log, (Conn.Read_spec _ _).2.1, (Conn.SetReadDeadline_frame _ _).1]
  · rw [Device.Query_empty, ← h]
    exact Device.queryRead_log c 9223372036855 now

/-- C4: `Query` calls the connection's write exactly when `cmd` is not empty.
With the empty string the first call on the connection is the deadline call and
only reads follow; otherwise the first call is one write of `TrimSpace cmd`
followed by a newline, the same bytes `Command cmd` hands over, and whatever
follows it is the deadline call and reads. -/
theorem Query_writes_iff_nonempty (sprintf : Bytes → List Arg → Bytes) (c : Conn) (t : Int)
    (now : Int) (cmd : Bytes) :
    ∃ tail : List Call,
      (∀ x ∈ tail, ∀ p : Bytes, x ≠ Call.write p) ∧
      resultLog (Device.Query sprintf { conn := some c, timeout := t } now cmd) =
        some (c.log ++
          (if cmd = [] then [] else [Call.write (TrimSpace cmd ++ ['\n'])]) ++ tail) ∧
      (cmd = [] → tail.head? = some (Call.setReadDeadline (readDeadline t now))) ∧
      (cmd ≠ [] →
        resultLog (Device.Command sprintf { conn := some c, timeout := t } cmd none) =
          some (c.log ++ [Call.write (TrimSpace cmd ++ ['\n'])])) := by
  have hreads : ∀ ns : List Nat, ∀ x ∈ Call.setReadDeadline (readDeadline t now) ::
      ns.map Call.read, ∀ p : Bytes, x ≠ Call.write p := by
    intro ns x hx p
    simp only [List.mem_cons, List.mem_map] at hx
    rcases hx with rfl | ⟨n, _, rfl⟩ <;> simp
  by_cases hcmd : cmd = []
  · subst hcmd
    obtain ⟨ns, hns⟩ := Device.queryRead_log c t now
    refine ⟨_, hreads ns, ?_, fun _ => rfl, fun h => absurd rfl h⟩
    rw [Device.Query_empty, hns]
    simp
  · have hcommand : resultLog (Device.Command sprintf { conn := some c, timeout := t } cmd none)
        = some (c.log ++ [Call.write (TrimSpace cmd ++ ['\n'])]) := by
      rw [Device.Command_eq]
      simp [resultLog, Device.log, (Conn.Write_frame c _).1]
    rw [Device.Query_nonempty sprintf c t now cmd hcmd]
    cases hw : (c.Write (TrimSpace cmd ++ ['\n'])).2.2 with
    | some err =>
      refine ⟨[], by simp, ?_, fun h => absurd h hcmd, fun _ => hcommand⟩
      simp [resultLog, Device.log, (Conn.Write_frame c _).1, hcmd]
    | none =>
      obtain ⟨ns, hns⟩ := Device.queryRead_log (c.Write (TrimSpace cmd ++ ['\n'])).1 t now
      refine ⟨_, hreads ns, ?_, fun h => absurd h hcmd, fun _ => hcommand⟩
      simp only [hns, (Conn.Write_frame c _).1, hcmd, if_false]

/-- C5: for a non-empty `cmd` whose write fails with error `e`, `Query` returns
the empty string with exactly `e`; the connection is left as the failed write
left it: the read deadline and the inbound data are untouched and the write is
the only call made. -/
theorem Query_write_failure (sprintf : Bytes → List Arg → Bytes) (c : Conn) (t : Int)
    (now : Int) (cmd : Bytes) (e : GoError) (hcmd : cmd ≠ [])
    (hw : (c.Write (TrimSpace cmd ++ ['\n'])).2.2 = some e) :
    Device.Query sprintf { conn := some c, timeout := t } now cmd =
      Except.ok ({ conn := some (c.Write (TrimSpace cmd ++ ['\n'])).1, timeout := t }, [], some e) ∧
    (c.Write (TrimSpace cmd ++ ['\n'])).1.deadline = c.deadline ∧
    (c.Write (TrimSpace cmd ++ ['\n'])).1.inbound = c.inbound ∧
    (c.Write (TrimSpace cmd ++ ['\n'])).1.log = c.log ++ [Call.write (TrimSpace cmd ++ ['\n'])] := by
  have hf := Conn.Write_frame c (TrimSpace cmd ++ ['\n'])
  refine ⟨?_, hf.2.2.1, hf.2.1, hf.1⟩
  rw [Device.Query_nonempty sprintf c t now cmd hcmd, hw]

/-- Instance of C5: the write of `*IDN?` fails with a transport error. -/
theorem Query_write_failure_witness :
    "*IDN?".toList ≠ [] ∧
    (faultyConn.Write (TrimSpace "*IDN?".toList ++ ['\n'])).2.2 = some (GoError.transport 7) ∧
    Device.Query Sprintf { conn := some faultyConn, timeout := 100 } 5 "*IDN?".toList =
      Except.ok ({ conn := some (faultyConn.Write (TrimSpace "*IDN?".toList ++ ['\n'])).1,
                   timeout := 100 }, [], some (GoError.transport 7)) :=
  ⟨by decide, by decide,
    (Query_write_failure Sprintf faultyConn 100 5 "*IDN?".toList (GoError.transport 7)
      (by decide) (by decide)).1⟩

/-- C6: when parsing the address fails, `NewDevice` returns the parser's error and
the network is untouched (nothing was dialled); when the dial fails it returns
the dial error; in both cases the device is the zero value, with no connection
and timeout 0.  Only on success does the device hold the dialled connection
and the timeout passed in. -/
theorem NewDevice_results (parse : Bytes → Except GoError VisaResource)
    (sprintf : Bytes → List Arg → Bytes) (nw : Network) (address : Bytes) (timeout : Int) :
    (∀ err : GoError, parse address = Except.error err →
      NewDevice parse sprintf nw address timeout = (nw, Device.zero, some err)) ∧
    (∀ (v : VisaResource) (err : GoError), parse address = Except.ok v →
      nw.answer (sprintf "%s:%d".toList [Arg.str v.hostAddress, Arg.int v.port])
        = Except.error err →
      (NewDevice parse sprintf nw address timeout).2 = (Device.zero, some err) ∧
      (NewDevice parse sprintf nw address timeout).1.dialled = nw.dialled ++
        [sprintf "%s:%d".toList [Arg.str v.hostAddress, Arg.int v.port]]) ∧
    (∀ (v : VisaResource) (c : Conn), parse address = Except.ok v →
      nw.answer (sprintf "%s:%d".toList [Arg.str v.hostAddress, Arg.int v.port])
        = Except.ok c →
      (NewDevice parse sprintf nw address timeout).2 =
        ({ conn := some c, timeout := timeout }, none)) ∧
    Device.zero.conn = none ∧ Device.zero.timeout = 0 := by
  refine ⟨?_, ?_, ?_, rfl, rfl⟩
  · intro err h
    simp [NewDevice, h]
  · intro v err h1 h2
    simp only [NewDevice, h1, Network.Dial, h2]
    exact ⟨trivial, trivial⟩
  · intro v c h1 h2
    simp only [NewDevice, h1, Network.Dial, h2, Device.zero]

/-- Instance of C6: an unsupported interface type, a refused dial and a successful dial. -/
theorem NewDevice_results_witness :
    NewDevice (NewVisaResource none) Sprintf sampleNetwork "GPIB::host::5025::SOCKET".toList 250
      = (sampleNetwork, Device.zero, some errUnsupported) ∧
    (NewDevice (NewVisaResource none) Sprintf sampleNetwork
      "TCPIP::other::5025::SOCKET".toList 250).2 = (Device.zero, some (GoError.dial 1)) ∧
    (NewDevice (NewVisaResource none) Sprintf sampleNetwork
      "TCPIP::host::5025::SOCKET".toList 250).2 =
        ({ conn := some lineConn, timeout := 250 }, none) :=
  ⟨(NewDevice_results (NewVisaResource none) Sprintf sampleNetwork
      "GPIB::host::5025::SOCKET".toList 250).1 errUnsupported rfl,
   ((NewDevice_results (NewVisaResource none) Sprintf sampleNetwork
      "TCPIP::other::5025::SOCKET".toList 250).2.1
        { hostAddress := "other".toList, port := 5025 } (GoError.dial 1) rfl rfl).1,
   (NewDevice_results (NewVisaResource none) Sprintf sampleNetwork
      "TCPIP::host::5025::SOCKET".toList 250).2.2.1
        { hostAddress := "host".toList, port := 5025 } lineConn rfl rfl⟩

/-- C7: `SetTimeout ms` stores `ms` and leaves the connection, with its armed
deadline, as it was.  The next `Read`, and the next `Query` with any `cmd`,
arms the deadline from `ms` and not from the earlier timeout: the call
`SetReadDeadline` is made with the instant computed from `ms` (by `Query` after
the write of a non-empty `cmd`, and unless that write fails), and on an open
connection that instant is the deadline afterwards.  No operation other than
`SetTimeout` changes the stored timeout. -/
theorem SetTimeout_takes_effect (sprintf : Bytes → List Arg → Bytes) (c : Conn) (t ms : Int)
    (now : Int) (n : Nat) (cmd : Bytes) :
    (∀ d : Device, (d.SetTimeout ms).timeout = ms ∧ (d.SetTimeout ms).conn = d.conn) ∧
    resultLog (Device.Read (Device.SetTimeout { conn := some c, timeout := t } ms) now n) =
      some (c.log ++ [Call.setReadDeadline (readDeadline ms now), Call.read n]) ∧
    resultDeadline (Device.Read (Device.SetTimeout { conn := some c, timeout := t } ms) now n) =
      some (if c.closed = true then c.deadline else readDeadline ms now) ∧
    (∃ ns : List Nat,
      resultLog (Device.Query sprintf (Device.SetTimeout { conn := some c, timeout := t } ms)
        now []) = some (c.log ++ Call.setReadDeadline (readDeadline ms now) :: ns.map Call.read)) ∧
    (∃ ns : List Nat,
      resultLog (Device.Query sprintf (Device.SetTimeout { conn := some c, timeout := t } ms)
        now cmd) =
        some (c.log ++
          (if cmd = [] then [] else [Call.write (TrimSpace cmd ++ ['\n'])]) ++
          (if cmd ≠ [] ∧ (c.Write (TrimSpace cmd ++ ['\n'])).2.2 ≠ none then []
           else Call.setReadDeadline (readDeadline ms now) :: ns.map Call.read))) ∧
    resultDeadline (Device.Query sprintf (Device.SetTimeout { conn := some c, timeout := t } ms)
        now cmd) =
      some (if c.closed = true ∨ (cmd ≠ [] ∧ (c.Write (TrimSpace cmd ++ ['\n'])).2.2 ≠ none)
        then c.deadline else readDeadline ms now) ∧
    (∀ (d d1 : Device) (op : Op) (err : Option GoError),
      d.step sprintf op = Except.ok (d1, err) → (∀ ms1 : Int, op ≠ Op.setTimeout ms1) →
      d1.timeout = d.timeout) := by
  refine ⟨fun d => ⟨rfl, rfl⟩, ?_, ?_, ?_, ?_, ?_, Device.step_timeout sprintf⟩
  · simp only [Device.SetTimeout, Device.Read_eq]
    simp [resultLog, Device.log, (Conn.Read_spec _ _).2.1, (Conn.SetReadDeadline_frame _ _).1]
  · exact Device.Read_deadline c ms now n
  · simp only [Device.SetTimeout, Device.Query_empty]
    exact Device.queryRead_log c ms now
  · exact Device.Query_log sprintf c ms now cmd
  · exact Device.Query_deadline sprintf c ms now cmd

/-- Instance of C7: after `SetTimeout(250)` on a device opened with timeout 100,
the query `*IDN?` at clock reading 5 leaves the deadline computed from 250 armed
and the stored timeout at 250. -/
theorem SetTimeout_takes_effect_witness :
    (∃ d1 : Device,
      Device.step Sprintf (Device.SetTimeout { conn := some lineConn, timeout := 100 } 250)
        (Op.query 5 "*IDN?".toList) = Except.ok (d1, none) ∧ d1.timeout = 250) ∧
    (∀ ms1 : Int, Op.query 5 "*IDN?".toList ≠ Op.setTimeout ms1) ∧
    resultDeadline (Device.Query Sprintf
        (Device.SetTimeout { conn := some lineConn, timeout := 100 } 250) 5 "*IDN?".toList) =
      some (readDeadline 250 5) ∧
    readDeadline 250 5 = 250000005 :=
  ⟨⟨_, rfl, (SetTimeout_takes_effect Sprintf lineConn 100 250 5 2 "*IDN?".toList).2.2.2.2.2.2
      (Device.SetTimeout { conn := some lineConn, timeout := 100 } 250) _
      (Op.query 5 "*IDN?".toList) none rfl (fun _ h => Op.noConfusion h)⟩,
   fun _ h => Op.noConfusion h,
   ((SetTimeout_takes_effect Sprintf lineConn 100 250 5 2 "*IDN?".toList).2.2.2.2.2.1).trans
     (by decide),
   by decide⟩

/-- C8 at the inbound stream of the two lines `A` and `B`, delivered together:
the first `Query("")` returns the first line and leaves nothing of the stream
on the connection, the second line having been read into the buffer of a reader
that is dropped; the second `Query("")` returns no line but the time-out of its
read. -/
theorem Query_drops_rest_of_delivery :
    lineConn.stream = "A\nB\n".toList ∧
    ∃ d1 d2 : Device,
      Device.Query Sprintf { conn := some lineConn, timeout := 100 } 5 [] =
        Except.ok (d1, "A\n".toList, none) ∧
      d1.conn.map Conn.stream = some [] ∧
      Device.Query Sprintf d1 7 [] = Except.ok (d2, [], some GoError.timeout) :=
  ⟨rfl, _, _, rfl, rfl, rfl⟩

/-- C9: once `Close` has been called on a device that holds a connection, every
later `Write`, `WriteString`, `Command`, `Read` and `Query` (with any `cmd`)
returns: it does not panic, and what it returns is the error of the closed
connection.  The device stays closed whatever is called on it. -/
theorem closed_device_refuses (sprintf : Bytes → List Arg → Bytes) (c : Conn) (t : Int)
    (ops : List Op) :
    ∃ (d1 : Device) (e : Option GoError),
      Device.Close { conn := some c, timeout := t } = Except.ok (d1, e) ∧
      d1.isClosed = true ∧
      ∃ (d2 : Device) (rs : List (Op × Option GoError)),
        Device.run sprintf d1 ops = Except.ok (d2, rs) ∧ d2.isClosed = true ∧
        rs.map Prod.fst = ops ∧
        ∀ r ∈ rs, r.1.isTransfer = true → r.2 = some GoError.netClosed := by
  have hd : Device.isClosed { conn := some c.Close.1, timeout := t } = true := by
    simpa [Device.isClosed] using Conn.Close_closed c
  exact ⟨_, _, Device.Close_eq c t, hd, Device.run_closed sprintf ops _ hd⟩

/-- C10: a resource string `TCPIP::host::port::SOCKET`, with a non-empty host free
of colons and a port written in decimal digits, parses to that host and to the
number the digits denote (the decimal numeral of `n` denotes `n`); a resource
string whose first segment is anything but `TCPIP` is rejected. -/
theorem NewVisaResource_tcpip_socket (defaultPort : Option Int) (host ptok : Bytes) (p : Nat)
    (hh : host ≠ []) (hc : ':' ∉ host) (hp : parseDecimal ptok = some p) :
    NewVisaResource defaultPort
        ("TCPIP::".toList ++ host ++ "::".toList ++ ptok ++ "::SOCKET".toList) =
      Except.ok { hostAddress := host, port := p } ∧
    (∀ n : Nat, parseDecimal (Nat.repr n).toList = some n) ∧
    (∀ address : Bytes, (splitSegments address).head? ≠ some "TCPIP".toList →
      NewVisaResource defaultPort address = Except.error errUnsupported) := by
  refine ⟨?_, parseDecimal_repr, ?_⟩
  · have e : "TCPIP::".toList ++ host ++ "::".toList ++ ptok ++ "::SOCKET".toList =
        "TCPIP".toList ++ ':' :: ':' :: (host ++ ':' :: ':' :: (ptok ++ ':' :: ':' ::
          "SOCKET".toList)) := by simp
    have hs : splitSegments ("TCPIP::".toList ++ host ++ "::".toList ++ ptok ++
        "::SOCKET".toList) = ["TCPIP".toList, host, ptok, "SOCKET".toList] := by
      rw [e, splitSegments_segment _ _ (by decide), splitSegments_segment _ _ hc,
        splitSegments_segment _ _ (parseDecimal_no_colon ptok p hp),
        splitSegments_no_colon _ (by decide)]
    simp only [NewVisaResource, hs, ne_eq, not_true_eq_false, if_false, hh, hp, if_true]
  · intro address h
    unfold NewVisaResource
    cases hs : splitSegments address with
    | nil => exact absurd hs (splitSegments_ne_nil address)
    | cons ty rest =>
      have hty : ty ≠ "TCPIP".toList := by
        intro hty
        rw [hs, hty] at h
        exact h rfl
      simp only [ne_eq, hty, not_false_eq_true, if_true]

/-- Instance of C10: `TCPIP::192.168.1.10::5025::SOCKET`. -/
theorem NewVisaResource_tcpip_socket_witness :
    "192.168.1.10".toList ≠ [] ∧ ':' ∉ "192.168.1.10".toList ∧
    parseDecimal "5025".toList = some 5025 ∧
    NewVisaResource none
        ("TCPIP::".toList ++ "192.168.1.10".toList ++ "::".toList ++ "5025".toList ++
          "::SOCKET".toList) =
      Except.ok { hostAddress := "192.168.1.10".toList, port := 5025 } :=
  ⟨by decide, by decide, by decide,
    (NewVisaResource_tcpip_socket none "192.168.1.10".toList "5025".toList 5025 (by decide)
      (by decide) (by decide)).1⟩

end Lxi
